import Mathlib

/-!
# IT-HelpDesk-Assistant: verification of the core data pipeline

Shallow embedding of the ticket unification/normalization pipeline
(`src/data_processing.py`), the FAISS vector-index subsystem
(`src/faiss_index.py`, `src/embeddings.py`) and the candidate assembler
(`src/llm_client.py`).

Python strings are modelled as `List Char` (`PyStr`); `str.strip`,
`str.lower`, `str.replace(" ", "_")` are modelled character-exactly over
that representation.  External library calls (pandas date parsing /
formatting, the sentence-transformers embedding model, the Python `float`
builtin, `datetime.strptime`) are either taken as parameters of the
definitions that use them or modelled by explicit executable functions,
as noted in the doc comment of each definition.
-/

/-- A Python string, modelled as its list of characters. -/
abbrev PyStr := List Char

/-- Model of Python `str.strip()`: drop whitespace on both ends. -/
def pyStrip (s : PyStr) : PyStr :=
  (((s.dropWhile Char.isWhitespace).reverse).dropWhile Char.isWhitespace).reverse

/-- Model of Python `str.lower()` (ASCII letters). -/
def pyLower (s : PyStr) : PyStr :=
  s.map Char.toLower

/-- Model of Python `str.replace(" ", "_")` (the pattern is one character,
so replacement is a character map). -/
def pyReplaceSpace (s : PyStr) : PyStr :=
  s.map fun c => if c = ' ' then '_' else c

/-- Model of `col.strip().lower().replace(" ", "_")` — the column-name normalization
of `TicketDataProcessor._normalize_columns` (src/data_processing.py line 77). -/
def normName (s : PyStr) : PyStr :=
  pyReplaceSpace (pyLower (pyStrip s))

/-- Model of `REQUIRED_COLUMNS` from src/config.py. -/
def REQUIRED_COLUMNS : List PyStr :=
  ["ticket_id".toList, "issue".toList, "description".toList,
   "resolution".toList, "category".toList, "resolved".toList]

/-- First maximal digit run in a string: the text matched by the first
successful search of the regex pattern digit-plus (`re.search` in
`_normalize_ticket_ids`, src/data_processing.py line 90). -/
def firstDigitRun : PyStr → Option PyStr
  | [] => none
  | c :: cs =>
    if c.isDigit then some (List.takeWhile Char.isDigit (c :: cs))
    else firstDigitRun cs

/-- Decimal digits of a natural number, most significant first, accumulator
form with explicit fuel (structural, so the kernel can evaluate it; the
fuel never runs out when it starts at the number itself).  Models Python
str(int) / f-string formatting of an int. -/
def natToDecAux : Nat → Nat → PyStr → PyStr
  | _, 0, acc => acc
  | 0, _, acc => acc
  | f + 1, m + 1, acc =>
    natToDecAux f ((m + 1) / 10) (Char.ofNat (48 + (m + 1) % 10) :: acc)

/-- Model of Python decimal formatting of a nonnegative int. -/
def natToDec (n : Nat) : PyStr :=
  if n = 0 then ['0'] else natToDecAux n n []

/-- Model of `normalize_id` from `TicketDataProcessor._normalize_ticket_ids`
(src/data_processing.py lines 88-94): strip the stringified value, take the
first digit run if any, else fall back to `TCKT-<100000 + index>`.  The
`pd.isna` branch is vacuous here because the column was passed through
`fillna("")`, so every value is a string. -/
def normalize_id (value : PyStr) (index : Nat) : PyStr :=
  let s := pyStrip value
  match firstDigitRun s with
  | some num => "TCKT-".toList ++ num
  | none => "TCKT-".toList ++ natToDec (100000 + index)

/-- The list comprehension of `_normalize_ticket_ids`
(src/data_processing.py lines 96-99): `enumerate` over the column. -/
def normalizeTicketIdColumn (col : List PyStr) : List PyStr :=
  col.mapIdx fun i v => normalize_id v i

/-- Value of a natural number written in decimal digits (left fold, as the
digits are consumed left to right). -/
def digitsVal (s : PyStr) : Nat :=
  s.foldl (fun a c => 10 * a + (c.toNat - 48)) 0

/-! ## DataFrame model

A pandas DataFrame is modelled column-wise: a row count and an ordered list
of (column name, column values) pairs.  Scalar assignment `df[c] = ""`
broadcasts to `nrows` empty strings.  Named access `df[c]` is first-match
lookup (the pipeline only ever uses it on tables whose normalized names are
unique). -/

structure DF where
  nrows : Nat
  cols : List (PyStr × List PyStr)
deriving DecidableEq

/-- The column names of a table, in order. -/
def DF.names (df : DF) : List PyStr :=
  df.cols.map Prod.fst

/-- Model of `df[name]` — first column with the given name, if any. -/
def DF.getCol (df : DF) (name : PyStr) : Option (List PyStr) :=
  (df.cols.find? fun c => c.1 = name).map Prod.snd

/-- Model of `df[name]` where the caller has already ensured the column exists
(every use below follows `_normalize_columns`, which creates the required
columns). -/
def DF.getColD (df : DF) (name : PyStr) : List PyStr :=
  (df.getCol name).getD []

/-- Model of `df[name] = vals`: replace the values of every column having this name,
or append a new column at the end if none does. -/
def DF.setCol (df : DF) (name : PyStr) (vals : List PyStr) : DF :=
  if df.names.contains name then
    ⟨df.nrows, df.cols.map fun c => if c.1 = name then (c.1, vals) else c⟩
  else
    ⟨df.nrows, df.cols ++ [(name, vals)]⟩

/-- The loop `for col in REQUIRED_COLUMNS: if col not in df.columns:
df[col] = ""` of `_normalize_columns` (src/data_processing.py lines 81-83). -/
def addMissing : List PyStr → DF → DF
  | [], d => d
  | c :: cs, d =>
    addMissing cs (if d.names.contains c then d else d.setCol c (List.replicate d.nrows []))

/-- Model of `TicketDataProcessor._normalize_columns` (src/data_processing.py
lines 75-85): normalize every column name, then back-fill absent required
columns with empty strings. -/
def _normalize_columns (df : DF) : DF :=
  addMissing REQUIRED_COLUMNS ⟨df.nrows, df.cols.map fun c => (normName c.1, c.2)⟩

/-- Model of `TicketDataProcessor._normalize_ticket_ids` (src/data_processing.py
lines 87-101).  The `ticket_id` column exists at every call site because
`_normalize_columns` ran first. -/
def _normalize_ticket_ids (df : DF) : DF :=
  df.setCol "ticket_id".toList (normalizeTicketIdColumn (df.getColD "ticket_id".toList))

/-- One cell of the date normalization: `pd.to_datetime(value,
errors="coerce")` followed by `strftime("%Y-%m-%d")` with NaT coerced to
the empty string (src/data_processing.py lines 107-108).  The pandas
parser and formatter are external capabilities, taken as parameters
`pdParse` (None models NaT) and `fmt`. -/
def dateNormValue {δ : Type} (pdParse : PyStr → Option δ) (fmt : δ → PyStr)
    (v : PyStr) : PyStr :=
  match pdParse v with
  | some d => fmt d
  | none => []

/-- Model of `TicketDataProcessor._normalize_dates` (src/data_processing.py
lines 103-112). -/
def _normalize_dates {δ : Type} (pdParse : PyStr → Option δ) (fmt : δ → PyStr)
    (df : DF) : DF :=
  if df.names.contains "date".toList then
    df.setCol "date".toList ((df.getColD "date".toList).map (dateNormValue pdParse fmt))
  else
    df.setCol "date".toList (List.replicate df.nrows [])

/-- The embedding text of one row: `"Issue: " + issue + " - " +
"Description: " + description` (src/data_processing.py lines 117-119). -/
def embedText (issue desc : PyStr) : PyStr :=
  "Issue: ".toList ++ issue ++ " - ".toList ++ "Description: ".toList ++ desc

/-- Model of `TicketDataProcessor._create_embedding_text` (src/data_processing.py
lines 114-120).  `fillna("").astype(str)` is the identity in this model
(cells are already strings). -/
def _create_embedding_text (df : DF) : DF :=
  ((df.setCol "issue".toList (df.getColD "issue".toList)).setCol
      "description".toList (df.getColD "description".toList)).setCol
    "embedding_text".toList
    (List.zipWith embedText (df.getColD "issue".toList)
      (df.getColD "description".toList))

/-- The normalization sequence applied by `unify_tickets`
(src/data_processing.py lines 52-55): columns, ticket ids, dates,
embedding text. -/
def unifyNormalize {δ : Type} (pdParse : PyStr → Option δ) (fmt : δ → PyStr)
    (df : DF) : DF :=
  _create_embedding_text (_normalize_dates pdParse fmt (_normalize_ticket_ids (_normalize_columns df)))

/-! ## Candidate assembler model (src/llm_client.py)

`_parse_resolved` calls the Python builtin `float` on the cleaned string;
that builtin is modelled by `pyFloat` below with exact rational semantics
(decimal/exponent literal forms plus inf / infinity / nan; digit-group
underscores and overflow/underflow of IEEE floats are not modelled — the
claims under verification do not depend on them). -/

/-- Result of Python `float(s)` relevant to truthiness. -/
inductive PyFloat
  | num (q : ℚ)
  | inf (neg : Bool)
  | nan
deriving DecidableEq

/-- Optional leading sign of a float literal; returns (isNegative, rest). -/
def parseSign : PyStr → Bool × PyStr
  | '+' :: r => (false, r)
  | '-' :: r => (true, r)
  | r => (false, r)

/-- Optional exponent part of a float literal: empty means exponent 0;
otherwise the letter e, an optional sign and a nonempty digit run ending
the string. -/
def parseExp : PyStr → Option Int
  | [] => some 0
  | 'e' :: r =>
    let p := parseSign r
    let ds := p.2.takeWhile Char.isDigit
    if ds = [] ∨ p.2.dropWhile Char.isDigit ≠ [] then none
    else some (if p.1 then -(digitsVal ds : Int) else (digitsVal ds : Int))
  | _ => none

/-- Unsigned body of a float literal: digits, digits-dot-digits, dot-digits
(at least one digit overall), then an optional exponent. -/
def pyFloatBody (s : PyStr) : Option ℚ :=
  let ip := s.takeWhile Char.isDigit
  let r1 := s.dropWhile Char.isDigit
  match r1 with
  | '.' :: r2 =>
    let fp := r2.takeWhile Char.isDigit
    let r3 := r2.dropWhile Char.isDigit
    if ip = [] ∧ fp = [] then none
    else
      match parseExp r3 with
      | some e =>
        some (((digitsVal ip : ℚ) + (digitsVal fp : ℚ) / (10 : ℚ) ^ fp.length) * (10 : ℚ) ^ e)
      | none => none
  | r =>
    if ip = [] then none
    else
      match parseExp r with
      | some e => some ((digitsVal ip : ℚ) * (10 : ℚ) ^ e)
      | none => none

/-- Model of the Python builtin `float(s)` on an already lowercased,
stripped string (which is how `_parse_resolved` calls it). -/
def pyFloat (s : PyStr) : Option PyFloat :=
  let p := parseSign s
  if p.2 = "inf".toList ∨ p.2 = "infinity".toList then some (.inf p.1)
  else if p.2 = "nan".toList then some .nan
  else (pyFloatBody p.2).map fun q => .num (if p.1 then -q else q)

/-- Python truthiness `bool(float(s))`: a number is truthy iff nonzero;
infinities and nan are truthy. -/
def pyFloatTruthy : PyFloat → Bool
  | .num q => q ≠ 0
  | .inf _ => true
  | .nan => true

/-- Model of `TicketResolutionAssistant._parse_resolved` (src/llm_client.py
lines 105-120): empty string is falsy hence None; otherwise strip+lower,
match the words true/false, then numeric truthiness via `float`, and any
parse failure yields None (the unknown sentinel). -/
def _parse_resolved (value : PyStr) : Option Bool :=
  if value = [] then none
  else
    let s := pyLower (pyStrip value)
    if s = "true".toList then some true
    else if s = "false".toList then some false
    else
      match pyFloat s with
      | some f => some (pyFloatTruthy f)
      | none => none

/-- A parsed `datetime` restricted to the fields `strptime` with format
month/day/year produces. -/
structure MDY where
  month : Nat
  day : Nat
  year : Nat
deriving DecidableEq

/-- Gregorian leap-year rule, as `datetime` validates day-of-month. -/
def leapYear (y : Nat) : Bool :=
  decide ((y % 4 = 0 ∧ y % 100 ≠ 0) ∨ y % 400 = 0)

/-- Day count of a month, as `datetime` validates day-of-month. -/
def daysInMonth (y m : Nat) : Nat :=
  if m = 2 then (if leapYear y then 29 else 28)
  else if m = 4 ∨ m = 6 ∨ m = 9 ∨ m = 11 then 30
  else 31

/-- Model of `datetime.strptime(s, "%m/%d/%Y")`: one or two digits for the
month, a slash, one or two digits for the day, a slash, exactly four digits
for the year, nothing left over; then `datetime` range validation
(year at least 1, month 1-12, day within the month). -/
def strptimeMDY (s : PyStr) : Option MDY :=
  let m := s.takeWhile Char.isDigit
  let r1 := s.dropWhile Char.isDigit
  match r1 with
  | '/' :: r2 =>
    let d := r2.takeWhile Char.isDigit
    let r3 := r2.dropWhile Char.isDigit
    match r3 with
    | '/' :: r4 =>
      let y := r4.takeWhile Char.isDigit
      let r5 := r4.dropWhile Char.isDigit
      if m ≠ [] ∧ m.length ≤ 2 ∧ d ≠ [] ∧ d.length ≤ 2 ∧ y.length = 4 ∧ r5 = [] then
        let mv := digitsVal m
        let dv := digitsVal d
        let yv := digitsVal y
        if 1 ≤ yv ∧ 1 ≤ mv ∧ mv ≤ 12 ∧ 1 ≤ dv ∧ dv ≤ daysInMonth yv mv then
          some ⟨mv, dv, yv⟩
        else none
      else none
    | _ => none
  | _ => none

/-- Model of `TicketResolutionAssistant._parse_date` (src/llm_client.py
lines 122-130): empty string short-circuits to None, otherwise a single
`strptime` attempt with format month/day/year, any failure giving None. -/
def _parse_date (date_str : PyStr) : Option MDY :=
  if date_str = [] then none else strptimeMDY date_str

/-- The metadata dictionary of a search hit, with the keys
`_prepare_candidates` reads (absent keys default to the empty string,
which this model represents by the field holding the empty string). -/
structure HitMeta where
  ticket_id : PyStr
  problem : PyStr
  resolution : PyStr
  date : PyStr
  agent_name : PyStr
  category : PyStr
  resolved : PyStr
deriving DecidableEq

/-- One search hit as produced by the vector index. -/
structure Hit where
  id : PyStr
  score : ℚ
  metadata : HitMeta
deriving DecidableEq

/-- A recommendation candidate (src/llm_client.py lines 82-97). -/
structure Candidate where
  ticket_id : PyStr
  problem : PyStr
  resolution : PyStr
  date : PyStr
  agent_name : PyStr
  category : PyStr
  resolved : Option Bool
  score : ℚ
  _parsed_date : Option MDY
deriving DecidableEq

/-- The candidate built from one hit (loop body of `_prepare_candidates`). -/
def toCandidate (t : Hit) : Candidate :=
  { ticket_id := t.metadata.ticket_id
    problem := t.metadata.problem
    resolution := t.metadata.resolution
    date := t.metadata.date
    agent_name := t.metadata.agent_name
    category := t.metadata.category
    resolved := _parse_resolved t.metadata.resolved
    score := t.score
    _parsed_date := _parse_date t.metadata.date }

/-- Model of `TicketResolutionAssistant._prepare_candidates` (src/llm_client.py
lines 73-103): map hits to candidates, then a stable descending sort on
score (Python `list.sort(key=score, reverse=True)`). -/
def _prepare_candidates (similar_tickets : List Hit) : List Candidate :=
  List.insertionSort (fun a b => b.score ≤ a.score) (similar_tickets.map toCandidate)

/-! ## Vector index model (src/faiss_index.py, src/embeddings.py)

Embedding vectors are modelled as lists of rationals, the embedding model
as a parameter `embed : PyStr → List ℚ`.  The FAISS `IndexFlatIP` holds the
list of added vectors; its `search` computes all inner products, ranks
them descending, truncates to `k`, and pads with the sentinel index `-1`
(score value irrelevant — the caller drops sentinels) when fewer than `k`
vectors exist.  Document metadata is a type parameter `α`. -/

/-- One JSON document as consumed by `FAISSIndex.build`
(`load_documents` output): id, text, metadata. -/
structure Document (α : Type) where
  id : PyStr
  text : PyStr
  metadata : α

/-- The triple `ids, texts, metadata` produced by
`FAISSIndex._prepare_items`. -/
structure PrepItems (α : Type) where
  ids : List PyStr
  texts : List PyStr
  metadata : List α

/-- The filtered (id, text, metadata) triples kept by `_prepare_items`:
id and text stripped, rows with empty stripped id or text skipped. -/
def keptItems {α : Type} (docs : List (Document α)) : List (PyStr × PyStr × α) :=
  docs.filterMap fun doc =>
    let i := pyStrip doc.id
    let t := pyStrip doc.text
    if i = [] ∨ t = [] then none else some (i, t, doc.metadata)

/-- Model of `FAISSIndex._prepare_items` (src/faiss_index.py lines 155-173). -/
def _prepare_items {α : Type} (docs : List (Document α)) : PrepItems α :=
  ⟨(keptItems docs).map fun e => e.1,
   (keptItems docs).map fun e => e.2.1,
   (keptItems docs).map fun e => e.2.2⟩

/-- The batch start offsets of `range(0, len(texts), batch_size)` in
`EmbeddingModel.encode_texts` (src/embeddings.py line 34). -/
def batchStarts (n bs : Nat) : List Nat :=
  (List.range ((n + bs - 1) / bs)).map fun j => j * bs

/-- Model of `EmbeddingModel.encode_texts` (src/embeddings.py lines 27-54): encode
the texts in batches; if no batch was produced (empty input) raise
`No embeddings generated`, else stack the batches. -/
def encode_texts {α : Type} (embed : PyStr → List α) (batch_size : Nat)
    (texts : List PyStr) : Except String (List (List α)) :=
  if ((batchStarts texts.length batch_size).map fun i =>
      (texts.drop i).take batch_size) = [] then
    .error "No embeddings generated"
  else
    .ok ((((batchStarts texts.length batch_size).map fun i =>
      (texts.drop i).take batch_size).map fun b => b.map embed).flatten)

/-- In-memory state of a `FAISSIndex` object: the (optional) index with
its vectors, the id list, and the metadata list. -/
structure FAISSState (α : Type) where
  index : Option (List (List ℚ))
  ids : List PyStr
  metadata : List α

/-- The three persisted artifacts (index file, ids file, metadata file);
`none` models an absent file. -/
structure FileSystem (α : Type) where
  indexFile : Option (List (List ℚ))
  idsFile : Option (List PyStr)
  metaFile : Option (List α)

/-- Model of `FAISSIndex.build` (src/faiss_index.py lines 34-67): fail on an empty
document set, prepare items, encode, then install vectors, ids and
metadata.  On failure the previous in-memory state is untouched. -/
def FAISSIndex.build {α : Type} (embed : PyStr → List ℚ) (batch_size : Nat)
    (docs : List (Document α)) : Except String (FAISSState α) :=
  if docs.isEmpty then .error "No documents found"
  else
    match encode_texts embed batch_size (_prepare_items docs).texts with
    | .error e => .error e
    | .ok embs =>
      .ok ⟨some embs, (_prepare_items docs).ids, (_prepare_items docs).metadata⟩

/-- Model of `FAISSIndex.save` (src/faiss_index.py lines 69-87): refuse to save
without an index, else overwrite the three artifacts. -/
def FAISSIndex.save {α : Type} (st : FAISSState α) (_fs : FileSystem α) :
    Except String (FileSystem α) :=
  match st.index with
  | none => .error "No index to save. Build or load an index first."
  | some vecs => .ok ⟨some vecs, some st.ids, some st.metadata⟩

/-- The two kinds of failure `FAISSIndex.load` can raise: the distinct
index-not-found condition of lines 90-94, versus the plain file errors of
reading the auxiliary artifacts (lines 100, 104). -/
inductive LoadErr
  | indexNotFound
  | auxiliaryMissing
deriving DecidableEq

/-- Model of `FAISSIndex.load` (src/faiss_index.py lines 89-108): the distinct
index-not-found error exactly when the index artifact is absent; with the
index artifact present, read the ids and metadata artifacts. -/
def FAISSIndex.load {α : Type} (fs : FileSystem α) :
    Except LoadErr (FAISSState α) :=
  match fs.indexFile with
  | none => .error .indexNotFound
  | some vecs =>
    match fs.idsFile with
    | none => .error .auxiliaryMissing
    | some ids =>
      match fs.metaFile with
      | none => .error .auxiliaryMissing
      | some md => .ok ⟨some vecs, ids, md⟩

/-- Inner product of two vectors (`faiss.IndexFlatIP` scoring). -/
def innerProduct (q v : List ℚ) : ℚ :=
  (List.zipWith (fun a b => a * b) q v).sum

/-- The score FAISS reports on padding entries (most negative float);
its value never reaches a caller because the paired index is `-1`. -/
def PAD_SCORE : ℚ := -(340282346638528859811704183484516925440 : ℚ)

/-- Model of `faiss.IndexFlatIP.search`: score every stored vector by
inner product with the query, rank descending, keep the best `k`, and pad
to exactly `k` entries with the sentinel index `-1`. -/
def flatIPSearch (vecs : List (List ℚ)) (q : List ℚ) (k : Nat) :
    List (ℚ × Int) :=
  let scored := vecs.enum.map fun p => (innerProduct q p.2, (p.1 : Int))
  let sorted := List.insertionSort (fun a b => b.1 ≤ a.1) scored
  let top := sorted.take k
  top ++ List.replicate (k - top.length) (PAD_SCORE, -1)

/-- One returned search result (src/faiss_index.py lines 131-135). -/
structure SearchResult (α : Type) where
  id : PyStr
  score : ℚ
  metadata : α

/-- The result-collection loop of `FAISSIndex.search` (lines 126-135):
skip any hit whose index is negative or at least `len(ids)`; for the rest
look up id and metadata positionally — an out-of-range metadata access
is a Python IndexError, modelled as `none`. -/
def collectResults {α : Type} (ids : List PyStr) (md : List α) :
    List (ℚ × Int) → Option (List (SearchResult α))
  | [] => some []
  | (s, idx) :: rest =>
    if idx < 0 ∨ (ids.length : Int) ≤ idx then collectResults ids md rest
    else
      match ids[idx.toNat]?, md[idx.toNat]? with
      | some i, some m =>
        (collectResults ids md rest).map fun rs => ⟨i, s, m⟩ :: rs
      | _, _ => none

/-- Model of `FAISSIndex.search` (src/faiss_index.py lines 110-138): error without
an index; otherwise run the underlying index search, collect the
non-sentinel hits, and defensively re-sort descending by score
(a stable Python sort). -/
def FAISSIndex.search {α : Type} (st : FAISSState α) (q : List ℚ)
    (top_k : Nat) : Except String (List (SearchResult α)) :=
  match st.index with
  | none => .error "No index loaded. Call load() first."
  | some vecs =>
    match collectResults st.ids st.metadata (flatIPSearch vecs q top_k) with
    | none => .error "IndexError"
    | some rs => .ok (List.insertionSort (fun a b => b.score ≤ a.score) rs)

/-! ## Claim C6: resolved-status parsing -/

/-- Unfolding of the non-empty branch of the resolved parser. -/
theorem parse_resolved_of_ne (v : PyStr) (hv : v ≠ []) :
    _parse_resolved v =
      (if pyLower (pyStrip v) = "true".toList then some true
       else if pyLower (pyStrip v) = "false".toList then some false
       else
         match pyFloat (pyLower (pyStrip v)) with
         | some f => some (pyFloatTruthy f)
         | none => none) := by
  unfold _parse_resolved
  rw [if_neg hv]

/-- Helper: truthiness of a parsed numeric literal. -/
theorem pyFloatTruthy_num (q : ℚ) : pyFloatTruthy (.num q) = decide (q ≠ 0) := rfl

/-- Claim C6.  For every stored resolved-field value: the empty string maps
to the unknown sentinel; the cleaned (stripped, lowercased) value compared
to the words true and false decides the boolean case-insensitively; failing
that, numeric truthiness through the `float` builtin applies; any value
`float` rejects maps to the unknown sentinel; the parse is total (it
always returns one of the three outcomes and never raises); and the
concrete anchors of the spec hold: True, TRUE and 1 parse to true,
false and 0 parse to false, the empty string and maybe parse to unknown. -/
theorem parse_resolved_cases (v : PyStr) :
    (v = [] → _parse_resolved v = none) ∧
    (pyLower (pyStrip v) = "true".toList → _parse_resolved v = some true) ∧
    (pyLower (pyStrip v) = "false".toList → _parse_resolved v = some false) ∧
    (∀ f, v ≠ [] → pyLower (pyStrip v) ≠ "true".toList →
      pyLower (pyStrip v) ≠ "false".toList →
      pyFloat (pyLower (pyStrip v)) = some f →
      _parse_resolved v = some (pyFloatTruthy f)) ∧
    (v ≠ [] → pyLower (pyStrip v) ≠ "true".toList →
      pyLower (pyStrip v) ≠ "false".toList →
      pyFloat (pyLower (pyStrip v)) = none → _parse_resolved v = none) ∧
    (_parse_resolved v = none ∨ _parse_resolved v = some true ∨
      _parse_resolved v = some false) ∧
    _parse_resolved "True".toList = some true ∧
    _parse_resolved "TRUE".toList = some true ∧
    _parse_resolved "1".toList = some true ∧
    _parse_resolved "false".toList = some false ∧
    _parse_resolved "0".toList = some false ∧
    _parse_resolved "".toList = none ∧
    _parse_resolved "maybe".toList = none := by
  have hone : _parse_resolved "1".toList = some true := by
    rw [parse_resolved_of_ne "1".toList (by decide), if_neg (by decide),
      if_neg (by decide)]
    have hf : pyFloat (pyLower (pyStrip "1".toList)) =
        some (PyFloat.num ((digitsVal ['1'] : ℚ) * (10 : ℚ) ^ (0 : ℤ))) := rfl
    rw [hf]
    have h1 : digitsVal ['1'] = 1 := rfl
    simp only [pyFloatTruthy_num, h1, Option.some.injEq]
    rw [decide_eq_true_eq]
    norm_num
  have hzero : _parse_resolved "0".toList = some false := by
    rw [parse_resolved_of_ne "0".toList (by decide), if_neg (by decide),
      if_neg (by decide)]
    have hf : pyFloat (pyLower (pyStrip "0".toList)) =
        some (PyFloat.num ((digitsVal ['0'] : ℚ) * (10 : ℚ) ^ (0 : ℤ))) := rfl
    rw [hf]
    have h0 : digitsVal ['0'] = 0 := rfl
    simp only [pyFloatTruthy_num, h0, Option.some.injEq]
    rw [decide_eq_false_iff_not]
    norm_num
  refine ⟨?_, ?_, ?_, ?_, ?_, ?_, by decide, by decide, hone, by decide,
    hzero, by decide, by decide⟩
  · intro h
    subst h
    rfl
  · intro ht
    have hv : v ≠ [] := by
      intro h
      subst h
      exact absurd ht (by decide)
    rw [parse_resolved_of_ne v hv, if_pos ht]
  · intro hfa
    have hv : v ≠ [] := by
      intro h
      subst h
      exact absurd hfa (by decide)
    have hne : pyLower (pyStrip v) ≠ "true".toList := by
      rw [hfa]
      decide
    rw [parse_resolved_of_ne v hv, if_neg hne, if_pos hfa]
  · intro f hv h1 h2 h3
    rw [parse_resolved_of_ne v hv, if_neg h1, if_neg h2, h3]
  · intro hv h1 h2 h3
    rw [parse_resolved_of_ne v hv, if_neg h1, if_neg h2, h3]
  · by_cases hv : v = []
    · subst hv
      exact Or.inl rfl
    · rw [parse_resolved_of_ne v hv]
      by_cases h1 : pyLower (pyStrip v) = "true".toList
      · rw [if_pos h1]
        exact Or.inr (Or.inl rfl)
      · rw [if_neg h1]
        by_cases h2 : pyLower (pyStrip v) = "false".toList
        · rw [if_pos h2]
          exact Or.inr (Or.inr rfl)
        · rw [if_neg h2]
          cases hf : pyFloat (pyLower (pyStrip v)) with
          | none => exact Or.inl rfl
          | some f =>
            cases hb : pyFloatTruthy f
            · exact Or.inr (Or.inr (by simp only []; rw [hb]))
            · exact Or.inr (Or.inl (by simp only []; rw [hb]))

/-! ## Claim C9: the distinct index-not-found condition of load -/

/-- Claim C9.  For every filesystem state, `load` fails with the distinct
index-not-found condition exactly when the index artifact is absent,
independently of the auxiliary id / metadata artifacts; with the index
artifact present that condition is never raised. -/
theorem load_indexNotFound_iff (α : Type) (fs : FileSystem α) :
    FAISSIndex.load fs = Except.error LoadErr.indexNotFound ↔
      fs.indexFile = none := by
  obtain ⟨i, d, m⟩ := fs
  cases i <;> cases d <;> cases m <;> simp [FAISSIndex.load]

/-- Witness for C6: a concrete value with surrounding whitespace and mixed
case parses to true through the case-insensitive branch. -/
theorem parse_resolved_cases_witness :
    _parse_resolved " TRUE ".toList = some true :=
  (parse_resolved_cases " TRUE ".toList).2.1 (by decide)

/-! ## Claim C10: pipeline dates never parse in the candidate assembler -/

/-- Helper: takeWhile over a run satisfying the predicate followed by a
failing element. -/
theorem takeWhile_append_sandwich (p : Char → Bool) (a : PyStr) (x : Char)
    (r : PyStr) (ha : ∀ y ∈ a, p y = true) (hx : p x = false) :
    List.takeWhile p (a ++ x :: r) = a := by
  induction a with
  | nil => simp [List.takeWhile_cons, hx]
  | cons y ys ih =>
    have hy : p y = true := ha y (List.mem_cons_self y ys)
    simp only [List.cons_append, List.takeWhile_cons, hy, if_true]
    rw [ih fun z hz => ha z (List.mem_cons_of_mem y hz)]

/-- Helper: dropWhile over a run satisfying the predicate followed by a
failing element. -/
theorem dropWhile_append_sandwich (p : Char → Bool) (a : PyStr) (x : Char)
    (r : PyStr) (ha : ∀ y ∈ a, p y = true) (hx : p x = false) :
    List.dropWhile p (a ++ x :: r) = x :: r := by
  induction a with
  | nil => simp [List.dropWhile_cons, hx]
  | cons y ys ih =>
    have hy : p y = true := ha y (List.mem_cons_self y ys)
    simp only [List.cons_append, List.dropWhile_cons, hy, if_true]
    exact ih fun z hz => ha z (List.mem_cons_of_mem y hz)

/-- A string in the canonical year-month-day shape produced by the date
normalizer: four digits, a hyphen, two digits, a hyphen, two digits. -/
def CanonicalYMD (s : PyStr) : Prop :=
  ∃ a b c : PyStr,
    (∀ x ∈ a, x.isDigit = true) ∧ (∀ x ∈ b, x.isDigit = true) ∧
    (∀ x ∈ c, x.isDigit = true) ∧
    a.length = 4 ∧ b.length = 2 ∧ c.length = 2 ∧
    s = a ++ '-' :: (b ++ '-' :: c)

/-- The candidate date parser rejects every canonical year-month-day
string: its month field stops at the first hyphen, where a slash is
required. -/
theorem parse_date_canonical_none (s : PyStr) (h : CanonicalYMD s) :
    _parse_date s = none := by
  obtain ⟨a, b, c, hda, _, _, hla, _, _, hs⟩ := h
  have hne : s ≠ [] := by
    rw [hs]
    intro hcon
    have := congrArg List.length hcon
    simp [hla] at this
  rw [_parse_date, if_neg hne]
  rw [strptimeMDY]
  rw [hs, dropWhile_append_sandwich Char.isDigit a '-' _ hda (by decide)]
  rfl

/-- Claim C10.  Every non-empty date string in the canonical
year-month-day form produced by the date normalizer is rejected by the
Candidate Assembler's date parser (which accepts only month/day/year), so
every candidate whose metadata date came through the normalization
pipeline carries the none sentinel as its parsed-date annotation. -/
theorem pipeline_dates_never_parse {δ : Type} (pdParse : PyStr → Option δ)
    (fmt : δ → PyStr) (hits : List Hit)
    (hfmt : ∀ d, CanonicalYMD (fmt d))
    (hdates : ∀ t ∈ hits, ∃ v, t.metadata.date = dateNormValue pdParse fmt v) :
    (∀ s, CanonicalYMD s → _parse_date s = none) ∧
    ∀ cand ∈ _prepare_candidates hits, cand._parsed_date = none := by
  refine ⟨fun s hs => parse_date_canonical_none s hs, ?_⟩
  intro cand hc
  rw [_prepare_candidates, List.mem_insertionSort] at hc
  obtain ⟨t, ht, rfl⟩ := List.mem_map.mp hc
  obtain ⟨v, hv⟩ := hdates t ht
  show _parse_date t.metadata.date = none
  rw [hv, dateNormValue]
  cases hp : pdParse v with
  | none => rfl
  | some d => exact parse_date_canonical_none _ (hfmt d)

/-- Witness for C10: the single candidate built from a hit whose date is
the canonical rendering of a concrete parsed date carries the none
sentinel as its parsed-date annotation. -/
theorem pipeline_dates_never_parse_witness :
    (toCandidate ⟨"TCKT-1".toList, 1,
      ⟨"TCKT-1".toList, [], [], "2024-01-15".toList, [], [], []⟩⟩)._parsed_date =
      none :=
  (pipeline_dates_never_parse (δ := Unit) (fun _ => some ())
    (fun _ => "2024-01-15".toList)
    [⟨"TCKT-1".toList, 1,
      ⟨"TCKT-1".toList, [], [], "2024-01-15".toList, [], [], []⟩⟩]
    (fun _ => show CanonicalYMD ("2024-01-15".toList) from
      ⟨"2024".toList, "01".toList, "15".toList, by decide, by decide,
        by decide, by decide, by decide, by decide, by decide⟩)
    (fun t ht => ⟨"x".toList, by
      rw [List.mem_singleton] at ht
      subst ht
      rfl⟩)).2
    (toCandidate ⟨"TCKT-1".toList, 1,
      ⟨"TCKT-1".toList, [], [], "2024-01-15".toList, [], [], []⟩⟩)
    (by
      have h0 : _prepare_candidates
          [⟨"TCKT-1".toList, 1,
            ⟨"TCKT-1".toList, [], [], "2024-01-15".toList, [], [], []⟩⟩] =
          [toCandidate ⟨"TCKT-1".toList, 1,
            ⟨"TCKT-1".toList, [], [], "2024-01-15".toList, [], [], []⟩⟩] := rfl
      rw [h0]
      exact List.mem_singleton.mpr rfl)

/-! ## Claim C3: ticket id normalization -/

/-- Helper: the character of a decimal digit has the expected code point. -/
theorem digitChar_toNat (r : Nat) (hr : r < 10) :
    (Char.ofNat (48 + r)).toNat = 48 + r := by
  interval_cases r <;> decide

/-- Helper: the character of a decimal digit is a digit. -/
theorem digitChar_isDigit (r : Nat) (hr : r < 10) :
    (Char.ofNat (48 + r)).isDigit = true := by
  interval_cases r <;> decide

/-- Helper: the fuel argument of the decimal renderer is irrelevant once
it is at least the number being rendered. -/
theorem natToDecAux_fuel_eq :
    ∀ n f1 f2 acc, n ≤ f1 → n ≤ f2 →
      natToDecAux f1 n acc = natToDecAux f2 n acc := by
  intro n
  induction n using Nat.strong_induction_on with
  | _ n ih =>
    intro f1 f2 acc h1 h2
    match n, f1, f2 with
    | 0, f1, f2 =>
      cases f1 <;> cases f2 <;> rfl
    | m + 1, g1 + 1, g2 + 1 =>
      show natToDecAux g1 ((m + 1) / 10) _ = natToDecAux g2 ((m + 1) / 10) _
      have hd : (m + 1) / 10 < m + 1 := Nat.div_lt_self (Nat.succ_pos m) (by omega)
      exact ih ((m + 1) / 10) hd g1 g2 _ (by omega) (by omega)

/-- Helper: one unfolding of the decimal renderer at full fuel. -/
theorem natToDecAux_succ (m : Nat) (acc : PyStr) :
    natToDecAux (m + 1) (m + 1) acc =
      natToDecAux ((m + 1) / 10) ((m + 1) / 10)
        (Char.ofNat (48 + (m + 1) % 10) :: acc) := by
  show natToDecAux m ((m + 1) / 10) _ = _
  have hd : (m + 1) / 10 < m + 1 := Nat.div_lt_self (Nat.succ_pos m) (by omega)
  exact natToDecAux_fuel_eq ((m + 1) / 10) m ((m + 1) / 10) _ (by omega) le_rfl

/-- Helper: the accumulator of the decimal renderer is a suffix. -/
theorem natToDecAux_append (n : Nat) :
    ∀ acc, natToDecAux n n acc = natToDecAux n n [] ++ acc := by
  induction n using Nat.strong_induction_on with
  | _ n ih =>
    intro acc
    match n with
    | 0 => rfl
    | m + 1 =>
      have hlt : (m + 1) / 10 < m + 1 := Nat.div_lt_self (Nat.succ_pos m) (by omega)
      rw [natToDecAux_succ, natToDecAux_succ]
      rw [ih ((m + 1) / 10) hlt (Char.ofNat (48 + (m + 1) % 10) :: acc)]
      rw [ih ((m + 1) / 10) hlt [Char.ofNat (48 + (m + 1) % 10)]]
      simp

/-- Helper: the digit-value fold with an arbitrary seed. -/
theorem foldl_digits_seed (l : PyStr) :
    ∀ s : Nat, l.foldl (fun a c => 10 * a + (c.toNat - 48)) s =
      s * 10 ^ l.length + digitsVal l := by
  induction l with
  | nil => intro s; simp [digitsVal]
  | cons c t ih =>
    intro s
    have hct : digitsVal (c :: t) = (c.toNat - 48) * 10 ^ t.length + digitsVal t := by
      rw [digitsVal, List.foldl_cons]
      have h := ih (10 * 0 + (c.toNat - 48))
      simpa using h
    rw [List.foldl_cons, ih (10 * s + (c.toNat - 48)), hct, List.length_cons]
    ring

/-- Helper: decimal value of a concatenation. -/
theorem digitsVal_append (a b : PyStr) :
    digitsVal (a ++ b) = digitsVal a * 10 ^ b.length + digitsVal b := by
  rw [digitsVal, List.foldl_append]
  exact foldl_digits_seed b (digitsVal a)

/-- Helper: the decimal renderer round-trips through the digit value. -/
theorem digitsVal_natToDecAux (n : Nat) :
    digitsVal (natToDecAux n n []) = n := by
  induction n using Nat.strong_induction_on with
  | _ n ih =>
    match n with
    | 0 => rfl
    | m + 1 =>
      have hlt : (m + 1) / 10 < m + 1 := Nat.div_lt_self (Nat.succ_pos m) (by omega)
      rw [natToDecAux_succ, natToDecAux_append ((m + 1) / 10)]
      rw [digitsVal_append, ih ((m + 1) / 10) hlt]
      have hr : (m + 1) % 10 < 10 := Nat.mod_lt _ (by omega)
      have hone : digitsVal [Char.ofNat (48 + (m + 1) % 10)] = (m + 1) % 10 := by
        rw [digitsVal, List.foldl_cons, List.foldl_nil, digitChar_toNat _ hr]
        omega
      rw [hone]
      simp
      omega

/-- Helper: the decimal renderer round-trips, hence is injective. -/
theorem digitsVal_natToDec (n : Nat) : digitsVal (natToDec n) = n := by
  by_cases h : n = 0
  · subst h; rfl
  · rw [natToDec, if_neg h]
    exact digitsVal_natToDecAux n

/-- Helper: every character the decimal renderer emits is a digit. -/
theorem natToDecAux_digits (n : Nat) :
    ∀ acc, (∀ c ∈ acc, c.isDigit = true) →
      ∀ c ∈ natToDecAux n n acc, c.isDigit = true := by
  induction n using Nat.strong_induction_on with
  | _ n ih =>
    intro acc hacc
    match n with
    | 0 => exact hacc
    | m + 1 =>
      have hlt : (m + 1) / 10 < m + 1 := Nat.div_lt_self (Nat.succ_pos m) (by omega)
      rw [natToDecAux_succ]
      refine ih ((m + 1) / 10) hlt _ ?_
      intro c hc
      rcases List.mem_cons.mp hc with h | h
      · subst h
        exact digitChar_isDigit _ (Nat.mod_lt _ (by omega))
      · exact hacc c h

/-- Helper: the decimal rendering of any natural number is a non-empty
all-digit string. -/
theorem natToDec_spec (n : Nat) :
    natToDec n ≠ [] ∧ ∀ c ∈ natToDec n, c.isDigit = true := by
  by_cases h : n = 0
  · subst h
    exact ⟨by decide, by decide⟩
  · rw [natToDec, if_neg h]
    constructor
    · match n, h with
      | m + 1, _ =>
        rw [natToDecAux_succ, natToDecAux_append]
        simp
    · exact natToDecAux_digits n [] (by simp)

/-- Helper: positional description of `mapIdx` through optional lookup. -/
theorem getElem?_mapIdx_list {β : Type} (f : Nat → PyStr → β) (l : List PyStr)
    (i : Nat) : (l.mapIdx f)[i]? = (l[i]?).map (f i) :=
  (List.mapIdx_eq_iff.mp rfl) i

/-- Claim C3.  ID normalization maps position `i` of the ticket-id column
through `normalize_id`; a value whose stripped form contains a digit run
becomes TCKT- followed by the first maximal run (in particular the spec's
example, raw id Ticket #4412-b, becomes exactly TCKT-4412 at every
position); a value with no digit becomes TCKT- followed by the decimal
rendering of 100000 + row position; and those fallback identifiers are
injective in the row position, hence collision-free within one unify
run. -/
theorem normalize_ticket_ids_spec (col : List PyStr) :
    (normalizeTicketIdColumn col).length = col.length ∧
    (∀ i v, col[i]? = some v →
      (normalizeTicketIdColumn col)[i]? = some (normalize_id v i)) ∧
    (∀ v i run, firstDigitRun (pyStrip v) = some run →
      normalize_id v i = "TCKT-".toList ++ run) ∧
    (∀ i, normalize_id "Ticket #4412-b".toList i = "TCKT-4412".toList) ∧
    (∀ v i, firstDigitRun (pyStrip v) = none →
      normalize_id v i = "TCKT-".toList ++ natToDec (100000 + i)) ∧
    (∀ v w i j, firstDigitRun (pyStrip v) = none →
      firstDigitRun (pyStrip w) = none →
      normalize_id v i = normalize_id w j → i = j) := by
  refine ⟨List.length_mapIdx, ?_, ?_, ?_, ?_, ?_⟩
  · intro i v hv
    rw [normalizeTicketIdColumn, getElem?_mapIdx_list, hv]
    rfl
  · intro v i run h
    rw [normalize_id]
    simp only [h]
  · intro i
    rfl
  · intro v i h
    rw [normalize_id]
    simp only [h]
  · intro v w i j hv hw heq
    rw [normalize_id] at heq
    simp only [hv] at heq
    rw [normalize_id] at heq
    simp only [hw] at heq
    have h2 : natToDec (100000 + i) = natToDec (100000 + j) :=
      List.append_cancel_left heq
    have h3 := congrArg digitsVal h2
    rw [digitsVal_natToDec, digitsVal_natToDec] at h3
    omega

/-- Witness for C3: a two-row column exercising the digit and fallback
branches; row 0 keeps its digit run, row 1 gets the fallback id. -/
theorem normalize_ticket_ids_spec_witness :
    (normalizeTicketIdColumn ["Ticket #4412-b".toList, "n/a".toList])[1]? =
      some ("TCKT-100001".toList) := by
  have h := (normalize_ticket_ids_spec
    ["Ticket #4412-b".toList, "n/a".toList]).2.1 1 "n/a".toList (by decide)
  rw [h]
  rfl

/-! ## Claims C8 and C2: build failure on empty sets, save/load round-trip -/

/-- Helper: the concatenation of the batch slices is the original list. -/
theorem flatten_batches {β : Type} (l : List β) (bs : Nat) (hbs : 0 < bs) :
    ((batchStarts l.length bs).map fun i => (l.drop i).take bs).flatten = l := by
  have key : ∀ k, ((List.range k).map fun j => (l.drop (j * bs)).take bs).flatten =
      l.take (k * bs) := by
    intro k
    induction k with
    | zero => simp
    | succ k ih =>
      rw [List.range_succ, List.map_append, List.flatten_append, ih]
      simp only [List.map_cons, List.map_nil, List.flatten_cons, List.flatten_nil,
        List.append_nil]
      rw [Nat.succ_mul, List.take_add]
  rw [batchStarts, List.map_map]
  have hmn : ∀ K, ((List.range K).map
      ((fun i => (l.drop i).take bs) ∘ fun j => j * bs)).flatten = l.take (K * bs) := by
    intro K
    rw [show ((fun i => (l.drop i).take bs) ∘ fun j : Nat => j * bs) =
      fun j => (l.drop (j * bs)).take bs from rfl]
    exact key K
  rw [hmn]
  apply List.take_of_length_le
  have hdm : (l.length + bs - 1) / bs * bs + (l.length + bs - 1) % bs =
      l.length + bs - 1 := Nat.div_add_mod' _ _
  have hmlt : (l.length + bs - 1) % bs < bs := Nat.mod_lt _ hbs
  omega

/-- Helper: with a positive batch size and a non-empty text list,
`encode_texts` succeeds and encodes the texts in order. -/
theorem encode_texts_ok {β : Type} (embed : PyStr → List β) (bs : Nat)
    (texts : List PyStr) (hbs : 0 < bs) (hne : texts ≠ []) :
    encode_texts embed bs texts = .ok (texts.map embed) := by
  have hK : 1 ≤ (texts.length + bs - 1) / bs := by
    rw [Nat.one_le_div_iff hbs]
    have : 1 ≤ texts.length := by
      cases texts with
      | nil => exact absurd rfl hne
      | cons a t => simp
    omega
  have hbne : (batchStarts texts.length bs).map
      (fun i => (texts.drop i).take bs) ≠ [] := by
    simp only [ne_eq, List.map_eq_nil_iff, batchStarts, List.map_eq_nil_iff,
      List.range_eq_nil]
    omega
  rw [encode_texts, if_neg hbne]
  congr 1
  rw [← List.map_flatten]
  rw [flatten_batches texts bs hbs]

/-- Helper: the empty text list makes `encode_texts` fail. -/
theorem encode_texts_nil {β : Type} (embed : PyStr → List β) (bs : Nat) :
    encode_texts embed bs ([] : List PyStr) = .error "No embeddings generated" := by
  have hz : (bs - 1) / bs = 0 := by
    rcases Nat.eq_zero_or_pos bs with h | h
    · subst h; rfl
    · exact Nat.div_eq_of_lt (by omega)
  simp [encode_texts, batchStarts, hz]

/-- Claim C8.  If no document survives the empty-id / empty-text filter
(including a documents file with no documents at all), build fails with a
fatal error and returns no index state; if at least one document survives
(and the configured batch size is positive, as the shipped configuration's
128 is), build does not fail. -/
theorem build_empty_document_set (α : Type) (embed : PyStr → List ℚ)
    (bs : Nat) (docs : List (Document α)) (hbs : 0 < bs) :
    (keptItems docs = [] → ∃ e, FAISSIndex.build embed bs docs = .error e) ∧
    (keptItems docs ≠ [] → ∃ st, FAISSIndex.build embed bs docs = .ok st) := by
  constructor
  · intro hk
    cases docs with
    | nil => exact ⟨"No documents found", rfl⟩
    | cons d ds =>
      refine ⟨"No embeddings generated", ?_⟩
      rw [FAISSIndex.build, if_neg (by simp)]
      have htexts : (_prepare_items (d :: ds)).texts = [] := by
        rw [_prepare_items]
        simp only [hk, List.map_nil]
      rw [htexts, encode_texts_nil]
  · intro hk
    have hdocs : docs ≠ [] := by
      intro h
      subst h
      exact hk rfl
    have htexts : (_prepare_items docs).texts ≠ [] := by
      rw [_prepare_items]
      simp only [ne_eq, List.map_eq_nil_iff]
      exact hk
    refine ⟨⟨some ((_prepare_items docs).texts.map embed),
      (_prepare_items docs).ids, (_prepare_items docs).metadata⟩, ?_⟩
    rw [FAISSIndex.build, if_neg (by simp [hdocs])]
    rw [encode_texts_ok embed bs _ hbs htexts]

/-- Witness for C8: a document set whose only document has a blank text
is rejected; a one-good-document set is accepted. -/
theorem build_empty_document_set_witness :
    (∃ e, FAISSIndex.build (fun _ => [(1 : ℚ)]) 128
      [⟨"TCKT-1".toList, "   ".toList, ()⟩] = .error e) ∧
    ∃ st, FAISSIndex.build (fun _ => [(1 : ℚ)]) 128
      [⟨"TCKT-1".toList, "vpn drops".toList, ()⟩] = .ok st :=
  ⟨(build_empty_document_set Unit (fun _ => [(1 : ℚ)]) 128
      [⟨"TCKT-1".toList, "   ".toList, ()⟩] (by decide)).1 (by decide),
   (build_empty_document_set Unit (fun _ => [(1 : ℚ)]) 128
      [⟨"TCKT-1".toList, "vpn drops".toList, ()⟩] (by decide)).2 (by decide)⟩

/-- Claim C2.  For every non-empty document set whose build succeeds,
saving and then loading restores the identical ordered id sequence,
metadata sequence and vector sequence, and search on the loaded state
agrees exactly with search on the pre-save state for every query vector
and every result count (exact score equality, which is within any
floating-point tolerance). -/
theorem build_save_load_roundtrip (α : Type) (embed : PyStr → List ℚ)
    (bs : Nat) (docs : List (Document α)) (st : FAISSState α)
    (fs0 : FileSystem α) (hdocs : docs ≠ [])
    (hbuild : FAISSIndex.build embed bs docs = .ok st) :
    ∃ fs, FAISSIndex.save st fs0 = .ok fs ∧
      ∃ st2, FAISSIndex.load fs = .ok st2 ∧
        st2.ids = st.ids ∧ st2.metadata = st.metadata ∧
        st2.index = st.index ∧
        ∀ q k, FAISSIndex.search st2 q k = FAISSIndex.search st q k := by
  rw [FAISSIndex.build, if_neg (by simp [hdocs])] at hbuild
  rcases henc : encode_texts embed bs (_prepare_items docs).texts with e | embs
  · rw [henc] at hbuild
    exact absurd hbuild (by simp)
  · rw [henc] at hbuild
    have hst : st = ⟨some embs, (_prepare_items docs).ids,
        (_prepare_items docs).metadata⟩ := by
      cases hbuild
      rfl
    refine ⟨⟨some embs, some st.ids, some st.metadata⟩, ?_, ?_⟩
    · rw [FAISSIndex.save, hst]
    · refine ⟨⟨some embs, st.ids, st.metadata⟩, rfl, rfl, rfl, ?_, ?_⟩
      · rw [hst]
      · intro q k
        rw [hst]

/-- Witness for C2: a concrete two-document build followed by save and
load reproduces the search answers. -/
theorem build_save_load_roundtrip_witness :
    ∃ fs, FAISSIndex.save
        ⟨some [[(1 : ℚ)], [(2 : ℚ)]],
          ["TCKT-1".toList, "TCKT-2".toList], [(), ()]⟩ ⟨none, none, none⟩ = .ok fs ∧
      ∃ st2, FAISSIndex.load fs = .ok st2 ∧
        st2.ids = ["TCKT-1".toList, "TCKT-2".toList] ∧ st2.metadata = [(), ()] ∧
        st2.index = some [[(1 : ℚ)], [(2 : ℚ)]] ∧
        ∀ q k, FAISSIndex.search st2 q k =
          FAISSIndex.search
            ⟨some [[(1 : ℚ)], [(2 : ℚ)]],
              ["TCKT-1".toList, "TCKT-2".toList], [(), ()]⟩ q k := by
  have hbuild : FAISSIndex.build
      (fun s => [(s.length : ℚ)]) 128
      [⟨"TCKT-1".toList, "a".toList, ()⟩, ⟨"TCKT-2".toList, "ab".toList, ()⟩] =
      .ok ⟨some [[(1 : ℚ)], [(2 : ℚ)]],
        ["TCKT-1".toList, "TCKT-2".toList], [(), ()]⟩ := by
    rw [FAISSIndex.build, if_neg (by simp)]
    rw [encode_texts_ok _ 128 _ (by decide) (by decide)]
    have : ((_prepare_items
        [⟨"TCKT-1".toList, "a".toList, ()⟩,
         ⟨"TCKT-2".toList, "ab".toList, ()⟩] : PrepItems Unit)).texts.map
        (fun s : PyStr => [(s.length : ℚ)]) = [[(1 : ℚ)], [(2 : ℚ)]] := by
      norm_num [_prepare_items, keptItems]
      decide
    rw [this]
    rfl
  exact build_save_load_roundtrip Unit (fun s => [(s.length : ℚ)]) 128
    [⟨"TCKT-1".toList, "a".toList, ()⟩, ⟨"TCKT-2".toList, "ab".toList, ()⟩]
    _ ⟨none, none, none⟩ (by simp) hbuild

/-! ## Claim C1: search returns at most k, drops sentinels, sorted -/

instance instIsTotalByScore {α : Type} :
    IsTotal (SearchResult α) (fun a b => b.score ≤ a.score) :=
  ⟨fun a b => le_total b.score a.score⟩

instance instIsTransByScore {α : Type} :
    IsTrans (SearchResult α) (fun a b => b.score ≤ a.score) :=
  ⟨fun _ _ _ h1 h2 => le_trans h2 h1⟩

/-- Helper: the sentinel padding appended by the index search is silently
skipped by the result-collection loop. -/
theorem collectResults_pad {α : Type} (ids : List PyStr) (md : List α)
    (xs : List (ℚ × Int)) (n : Nat) (spad : ℚ) :
    collectResults ids md (xs ++ List.replicate n (spad, -1)) =
      collectResults ids md xs := by
  induction xs with
  | nil =>
    simp only [List.nil_append]
    induction n with
    | zero => rfl
    | succ n ihn =>
      rw [List.replicate_succ]
      have hstep : collectResults ids md ((spad, -1) :: List.replicate n (spad, -1)) =
          collectResults ids md (List.replicate n (spad, -1)) := by
        rw [collectResults]
        rw [if_pos (Or.inl (show (-1 : Int) < 0 by decide) :
          (-1 : Int) < 0 ∨ (ids.length : Int) ≤ -1)]
      rw [hstep]
      exact ihn
  | cons p xs ih =>
    obtain ⟨s, idx⟩ := p
    simp only [List.cons_append, collectResults]
    split
    · exact ih
    · cases hids : ids[idx.toNat]? with
      | none => rfl
      | some i =>
        cases hmd : md[idx.toNat]? with
        | none => rfl
        | some m =>
          simp only [List.append_eq]
          rw [ih]

/-- Helper: on a hit list whose positions are all in range, the
result-collection loop succeeds and keeps every hit. -/
theorem collectResults_valid {α : Type} (ids : List PyStr) (md : List α)
    (hlen : md.length = ids.length) :
    ∀ xs : List (ℚ × Int), (∀ p ∈ xs, 0 ≤ p.2 ∧ p.2 < (ids.length : Int)) →
      ∃ rs, collectResults ids md xs = some rs ∧ rs.length = xs.length := by
  intro xs
  induction xs with
  | nil => exact fun _ => ⟨[], rfl, rfl⟩
  | cons p xs ih =>
    intro hval
    obtain ⟨s, idx⟩ := p
    have hp := hval _ (List.mem_cons_self _ _)
    have hp1 : 0 ≤ idx := hp.1
    have hp2 : idx < (ids.length : Int) := hp.2
    have hcond : ¬(idx < 0 ∨ (ids.length : Int) ≤ idx) := by omega
    have hidn : idx.toNat < ids.length := by omega
    have hmdn : idx.toNat < md.length := by omega
    obtain ⟨rs, hrs, hlenr⟩ := ih fun p hp => hval p (List.mem_cons_of_mem _ hp)
    refine ⟨⟨ids[idx.toNat], s, md[idx.toNat]⟩ :: rs, ?_, by simp [hlenr]⟩
    rw [collectResults, if_neg hcond]
    rw [List.getElem?_eq_getElem hidn, List.getElem?_eq_getElem hmdn, hrs]
    rfl

/-- Claim C1.  On every index state whose id and metadata sequences match
the vector sequence in length (every built or loaded state, by C4), search
with any query vector and any result count succeeds (sentinel positions
are dropped silently, never surfaced as an error), returns exactly
min(k, number of indexed vectors) results — in particular at most k — and
the returned list is sorted by non-increasing score thanks to the final
defensive re-sort. -/
theorem search_top_k_sorted (α : Type) (vecs : List (List ℚ))
    (ids : List PyStr) (md : List α) (q : List ℚ) (k : Nat)
    (hids : ids.length = vecs.length) (hmd : md.length = vecs.length) :
    ∃ rs, FAISSIndex.search ⟨some vecs, ids, md⟩ q k = .ok rs ∧
      rs.length = min k vecs.length ∧
      List.Sorted (fun a b => b.score ≤ a.score) rs := by
  have hvalid : ∀ p ∈ (List.insertionSort (fun a b : ℚ × Int => b.1 ≤ a.1)
      (vecs.enum.map fun p => (innerProduct q p.2, (p.1 : Int)))).take k,
      0 ≤ p.2 ∧ p.2 < (ids.length : Int) := by
    intro p hp
    have hmemsort := List.mem_of_mem_take hp
    have hmem := (List.mem_insertionSort _).mp hmemsort
    obtain ⟨⟨i, v⟩, hiv, rfl⟩ := List.mem_map.mp hmem
    have hilen : i < vecs.length := by
      rw [List.enum_eq_zip_range] at hiv
      exact List.mem_range.mp (List.of_mem_zip hiv).1
    refine ⟨Int.natCast_nonneg i, ?_⟩
    rw [hids]
    show (i : Int) < (vecs.length : Int)
    exact_mod_cast hilen
  have hlen : ((List.insertionSort (fun a b : ℚ × Int => b.1 ≤ a.1)
      (vecs.enum.map fun p => (innerProduct q p.2, (p.1 : Int)))).take k).length =
      min k vecs.length := by
    rw [List.length_take, List.length_insertionSort, List.length_map,
      List.enum_length]
  obtain ⟨rs, hrs, hlenr⟩ := collectResults_valid ids md (by omega) _ hvalid
  refine ⟨List.insertionSort (fun a b => b.score ≤ a.score) rs, ?_, ?_, ?_⟩
  · simp only [FAISSIndex.search, flatIPSearch]
    rw [collectResults_pad, hrs]
  · rw [List.length_insertionSort, hlenr, hlen]
  · exact List.sorted_insertionSort _ rs

/-- Witness for C1: a concrete three-vector index queried with k larger
than the corpus returns exactly the corpus size, in sorted order. -/
theorem search_top_k_sorted_witness :
    ∃ rs, FAISSIndex.search
        ⟨some [[(1 : ℚ)], [(3 : ℚ)], [(2 : ℚ)]],
          ["TCKT-1".toList, "TCKT-2".toList, "TCKT-3".toList],
          [(), (), ()]⟩ [1] 5 = .ok rs ∧
      rs.length = min 5 3 ∧
      List.Sorted (fun a b => b.score ≤ a.score) rs := by
  have h := search_top_k_sorted Unit [[(1 : ℚ)], [(3 : ℚ)], [(2 : ℚ)]]
    ["TCKT-1".toList, "TCKT-2".toList, "TCKT-3".toList] [(), (), ()]
    [1] 5 (by decide) (by decide)
  simpa using h

/-! ## Claim C4: consistency of every reachable index state -/

/-- Provenance invariant of an in-memory index state: ids, metadata and
(if present) vectors are the three projections of one filtered item list,
every entry of which has a non-empty stripped id and text. -/
def StInv {α : Type} (embed : PyStr → List ℚ) (st : FAISSState α) : Prop :=
  ∃ es : List (PyStr × PyStr × α),
    st.ids = es.map (fun e => e.1) ∧
    st.metadata = es.map (fun e => e.2.2) ∧
    ((st.index = none ∧ es = []) ∨
      st.index = some ((es.map fun e => e.2.1).map embed)) ∧
    ∀ e ∈ es, e.1 ≠ [] ∧ e.2.1 ≠ []

/-- Provenance invariant of the persisted artifacts: either nothing was
ever saved, or all three artifacts are projections of one item list. -/
def FsInv {α : Type} (embed : PyStr → List ℚ) (fs : FileSystem α) : Prop :=
  (fs.indexFile = none ∧ fs.idsFile = none ∧ fs.metaFile = none) ∨
  ∃ es : List (PyStr × PyStr × α),
    fs.idsFile = some (es.map fun e => e.1) ∧
    fs.metaFile = some (es.map fun e => e.2.2) ∧
    fs.indexFile = some ((es.map fun e => e.2.1).map embed) ∧
    ∀ e ∈ es, e.1 ≠ [] ∧ e.2.1 ≠ []

/-- States of the vector-index subsystem reachable through its operations
(build, save, load; search does not mutate), starting from a fresh object
and an empty artifact directory. -/
inductive Reachable {α : Type} (embed : PyStr → List ℚ) (bs : Nat) :
    FAISSState α × FileSystem α → Prop
  | init : Reachable embed bs (⟨none, [], []⟩, ⟨none, none, none⟩)
  | step_build {st : FAISSState α} {fs : FileSystem α} {st2 : FAISSState α}
      (docs : List (Document α)) :
      Reachable embed bs (st, fs) →
      FAISSIndex.build embed bs docs = .ok st2 →
      Reachable embed bs (st2, fs)
  | step_save {st : FAISSState α} {fs fs2 : FileSystem α} :
      Reachable embed bs (st, fs) →
      FAISSIndex.save st fs = .ok fs2 →
      Reachable embed bs (st, fs2)
  | step_load {st st2 : FAISSState α} {fs : FileSystem α} :
      Reachable embed bs (st, fs) →
      FAISSIndex.load fs = .ok st2 →
      Reachable embed bs (st2, fs)

/-- Helper: every filtered item has a non-empty stripped id and text. -/
theorem keptItems_good {α : Type} (docs : List (Document α)) :
    ∀ e ∈ keptItems docs, e.1 ≠ [] ∧ e.2.1 ≠ [] := by
  intro e he
  rw [keptItems] at he
  obtain ⟨d, _, hsome⟩ := List.mem_filterMap.mp he
  simp only [] at hsome
  by_cases h : pyStrip d.id = [] ∨ pyStrip d.text = []
  · rw [if_pos h] at hsome
    cases hsome
  · rw [if_neg h] at hsome
    push_neg at h
    cases hsome
    exact h

/-- Helper: a successful encode returns exactly the per-text embeddings. -/
theorem encode_texts_ok_inv {β : Type} {embed : PyStr → List β} {bs : Nat}
    {texts : List PyStr} {embs : List (List β)}
    (h : encode_texts embed bs texts = .ok embs) : embs = texts.map embed := by
  rw [encode_texts] at h
  by_cases hb : ((batchStarts texts.length bs).map fun i =>
      (texts.drop i).take bs) = []
  · rw [if_pos hb] at h
    cases h
  · rw [if_neg hb] at h
    have hbs : 0 < bs := by
      rcases Nat.eq_zero_or_pos bs with h0 | h0
      · exfalso
        apply hb
        subst h0
        simp [batchStarts, Nat.div_zero]
      · exact h0
    injection h with h2
    rw [← h2, ← List.map_flatten, flatten_batches texts bs hbs]

/-- Helper: a successful build installs exactly the projections of the
filtered item list. -/
theorem build_ok_inv {α : Type} {embed : PyStr → List ℚ} {bs : Nat}
    {docs : List (Document α)} {st2 : FAISSState α}
    (h : FAISSIndex.build embed bs docs = .ok st2) :
    st2 = ⟨some (((keptItems docs).map fun e => e.2.1).map embed),
      (keptItems docs).map fun e => e.1,
      (keptItems docs).map fun e => e.2.2⟩ := by
  rw [FAISSIndex.build] at h
  by_cases hd : docs.isEmpty
  · rw [if_pos hd] at h
    cases h
  · rw [if_neg hd] at h
    rcases henc : encode_texts embed bs (_prepare_items docs).texts with e | embs
    · rw [henc] at h
      cases h
    · rw [henc] at h
      have hembs := encode_texts_ok_inv henc
      cases h
      rw [hembs]
      rfl

/-- Helper: every reachable pair satisfies both provenance invariants. -/
theorem reachable_inv {α : Type} (embed : PyStr → List ℚ) (bs : Nat)
    (p : FAISSState α × FileSystem α)
    (h : Reachable embed bs p) : StInv embed p.1 ∧ FsInv embed p.2 := by
  induction h with
  | init =>
    exact ⟨⟨[], rfl, rfl, Or.inl ⟨rfl, rfl⟩, by simp⟩, Or.inl ⟨rfl, rfl, rfl⟩⟩
  | step_build docs hreach hbuild ih =>
    refine ⟨?_, ih.2⟩
    rw [build_ok_inv hbuild]
    exact ⟨keptItems docs, rfl, rfl, Or.inr rfl, keptItems_good docs⟩
  | step_save hreach hsave ih =>
    refine ⟨ih.1, ?_⟩
    obtain ⟨es, hids, hmd, hidx, hgood⟩ := ih.1
    rcases hidx with ⟨hnone, _⟩ | hsome
    · rw [FAISSIndex.save, hnone] at hsave
      cases hsave
    · rw [FAISSIndex.save, hsome] at hsave
      injection hsave with h2
      refine Or.inr ⟨es, ?_, ?_, ?_, hgood⟩
      · rw [← h2, hids]
      · rw [← h2, hmd]
      · rw [← h2]
  | step_load hreach hload ih =>
    refine ⟨?_, ih.2⟩
    rcases ih.2 with ⟨hnone, _, _⟩ | ⟨es, hids, hmd, hidx, hgood⟩
    · rw [FAISSIndex.load, hnone] at hload
      cases hload
    · rw [FAISSIndex.load, hidx, hids, hmd] at hload
      injection hload with h2
      exact ⟨es, by rw [← h2], by rw [← h2], Or.inr (by rw [← h2]), hgood⟩

/-- Claim C4.  In every state of the vector-index subsystem reachable
through its operations, the vector, id and metadata sequences have equal
length (vacuously so before any index exists, when ids and metadata are
both empty), they are positionally the projections of one common filtered
item list, and no position originates from a document whose stripped id or
text is empty. -/
theorem vector_index_invariant (α : Type) (embed : PyStr → List ℚ)
    (bs : Nat) (st : FAISSState α) (fs : FileSystem α)
    (h : Reachable embed bs (st, fs)) :
    (∀ vecs, st.index = some vecs →
      vecs.length = st.ids.length ∧ st.metadata.length = st.ids.length) ∧
    (st.index = none → st.ids = [] ∧ st.metadata = []) ∧
    (∀ i ∈ st.ids, i ≠ []) ∧
    StInv embed st := by
  obtain ⟨es, hids, hmd, hidx, hgood⟩ := (reachable_inv embed bs (st, fs) h).1
  refine ⟨?_, ?_, ?_, es, hids, hmd, hidx, hgood⟩
  · intro vecs hv
    rcases hidx with ⟨hn, _⟩ | hs
    · rw [hn] at hv
      cases hv
    · rw [hv] at hs
      injection hs with h2
      rw [h2, hids, hmd]
      simp
  · intro hn
    rcases hidx with ⟨_, hes⟩ | hs
    · subst hes
      simp at hids hmd
      exact ⟨hids, hmd⟩
    · rw [hn] at hs
      cases hs
  · intro i hi
    rw [hids] at hi
    obtain ⟨e, he, rfl⟩ := List.mem_map.mp hi
    exact (hgood e he).1

/-- Witness for C4: the state reached by one concrete successful build
from the initial state satisfies the invariant conclusions. -/
theorem vector_index_invariant_witness :
    (∀ vecs, (⟨some [[(1 : ℚ)]], ["TCKT-1".toList], [()]⟩ :
        FAISSState Unit).index = some vecs →
      vecs.length = 1 ∧ (1 : Nat) = 1) ∧
    ∀ i ∈ (⟨some [[(1 : ℚ)]], ["TCKT-1".toList], [()]⟩ :
        FAISSState Unit).ids, i ≠ [] := by
  have h := vector_index_invariant Unit (fun _ => [(1 : ℚ)]) 128
    (⟨some [[(1 : ℚ)]], ["TCKT-1".toList], [()]⟩ : FAISSState Unit)
    (⟨none, none, none⟩ : FileSystem Unit)
    (Reachable.step_build [⟨"TCKT-1".toList, "vpn".toList, ()⟩]
      Reachable.init rfl)
  exact ⟨fun vecs hv => h.1 vecs hv, h.2.2.1⟩

/-! ## Claim C7: required columns are back-filled, records never dropped -/

/-- The eight fields every record carries after full normalization
(spec §3: the six required columns plus date and source_file). -/
def RECORD_COLUMNS : List PyStr :=
  REQUIRED_COLUMNS ++ ["date".toList, "source_file".toList]

/-- Helper: appending a differently-named column does not change a
membership test. -/
theorem contains_append_single_of_ne {l : List PyStr} {c x : PyStr}
    (h : x ≠ c) : (l ++ [c]).contains x = l.contains x := by
  by_cases hx : x ∈ l
  · have h1 : l.contains x = true := by simpa using hx
    have h2 : (l ++ [c]).contains x = true := by simp [hx]
    rw [h1, h2]
  · have h1 : l.contains x = false := by simpa using hx
    have h2 : (l ++ [c]).contains x = false := by simp [hx, h]
    rw [h1, h2]

/-- Helper: row count is unchanged by a column assignment. -/
theorem nrows_setCol (df : DF) (n : PyStr) (vs : List PyStr) :
    (df.setCol n vs).nrows = df.nrows := by
  rw [DF.setCol]
  split <;> rfl

/-- Helper: names after a column assignment to an existing name. -/
theorem names_setCol_of_contains {df : DF} {n : PyStr} {vs : List PyStr}
    (h : df.names.contains n = true) : (df.setCol n vs).names = df.names := by
  rw [DF.setCol, if_pos h, DF.names, DF.names]
  show (df.cols.map fun c => if c.1 = n then (c.1, vs) else c).map Prod.fst =
    df.cols.map Prod.fst
  rw [List.map_map]
  apply List.map_congr_left
  intro c _
  by_cases hc : c.1 = n <;> simp [hc]

/-- Helper: names after a column assignment to a fresh name. -/
theorem names_setCol_of_not_contains {df : DF} {n : PyStr} {vs : List PyStr}
    (h : df.names.contains n = false) :
    (df.setCol n vs).names = df.names ++ [n] := by
  rw [DF.setCol, if_neg (by rw [h]; simp), DF.names, DF.names]
  simp

/-- Helper: a column assignment preserves membership of every name and
makes the assigned name present. -/
theorem mem_names_setCol {df : DF} {n m : PyStr} {vs : List PyStr}
    (h : m ∈ df.names) : m ∈ (df.setCol n vs).names := by
  cases hc : df.names.contains n with
  | true => rw [names_setCol_of_contains hc]; exact h
  | false => rw [names_setCol_of_not_contains hc]; exact List.mem_append_left _ h

/-- Helper: the assigned name is present after a column assignment. -/
theorem mem_names_setCol_self (df : DF) (n : PyStr) (vs : List PyStr) :
    n ∈ (df.setCol n vs).names := by
  cases hc : df.names.contains n with
  | true => rw [names_setCol_of_contains hc]; simpa using hc
  | false =>
    rw [names_setCol_of_not_contains hc]
    exact List.mem_append_right _ (List.mem_singleton.mpr rfl)

/-- Helper: closed form of the required-column back-fill loop on a list of
distinct column names. -/
theorem addMissing_spec :
    ∀ (cs : List PyStr) (d : DF), cs.Nodup →
      addMissing cs d = ⟨d.nrows,
        d.cols ++ (cs.filter fun c => !(d.names.contains c)).map
          fun c => (c, List.replicate d.nrows [])⟩ := by
  intro cs
  induction cs with
  | nil =>
    intro d _
    cases d
    simp [addMissing]
  | cons c cs ih =>
    intro d hnd
    have hcnotin : c ∉ cs := (List.nodup_cons.mp hnd).1
    have hnd2 : cs.Nodup := (List.nodup_cons.mp hnd).2
    rw [addMissing]
    cases hc : d.names.contains c with
    | true =>
      rw [if_pos rfl, ih d hnd2]
      have hfilter : ((c :: cs).filter fun x => !(d.names.contains x)) =
          cs.filter fun x => !(d.names.contains x) := by
        rw [List.filter_cons, hc]
        simp
      rw [hfilter]
    | false =>
      rw [if_neg (show ¬(false = true) by simp)]
      have hset : d.setCol c (List.replicate d.nrows []) =
          ⟨d.nrows, d.cols ++ [(c, List.replicate d.nrows [])]⟩ := by
        rw [DF.setCol, if_neg (by rw [hc]; simp)]
      rw [hset, ih _ hnd2]
      have hnames : (⟨d.nrows,
          d.cols ++ [(c, List.replicate d.nrows [])]⟩ : DF).names =
          d.names ++ [c] := by
        rw [DF.names, DF.names]
        simp
      have hfilter : (cs.filter fun x =>
          !((⟨d.nrows, d.cols ++ [(c, List.replicate d.nrows [])]⟩ : DF).names.contains x)) =
          cs.filter fun x => !(d.names.contains x) := by
        apply List.filter_congr
        intro x hx
        rw [hnames, contains_append_single_of_ne (by
          intro hxc
          exact hcnotin (hxc ▸ hx))]
      rw [hfilter]
      have hrfilter : ((c :: cs).filter fun x => !(d.names.contains x)) =
          c :: cs.filter fun x => !(d.names.contains x) := by
        rw [List.filter_cons, hc]
        simp
      rw [hrfilter]
      simp

set_option maxHeartbeats 2000000 in
/-- Claim C7.  For every combined source table (tagged with its
source_file column during unification) with any set of missing required
columns: column normalization creates every required column; each required
column absent from the renamed table is filled with the empty string for
every row; no record is dropped at that step nor across the whole
normalizer (the row count is preserved, and the model is a total function
— normalization raises nothing); and after the full normalization sequence
every record carries ticket_id, issue, description, resolution, category,
resolved, date and source_file. -/
theorem normalize_backfills_required {δ : Type} (pdParse : PyStr → Option δ)
    (fmt : δ → PyStr) (df : DF)
    (hsf : "source_file".toList ∈ df.names) :
    (∀ c ∈ REQUIRED_COLUMNS, c ∈ (_normalize_columns df).names) ∧
    (∀ c ∈ REQUIRED_COLUMNS, c ∉ df.names.map normName →
      (_normalize_columns df).getCol c = some (List.replicate df.nrows [])) ∧
    (_normalize_columns df).nrows = df.nrows ∧
    (unifyNormalize pdParse fmt df).nrows = df.nrows ∧
    (∀ c ∈ RECORD_COLUMNS, c ∈ (unifyNormalize pdParse fmt df).names) := by
  have hnodup : REQUIRED_COLUMNS.Nodup := by decide
  have hrenames : (⟨df.nrows, df.cols.map fun c => (normName c.1, c.2)⟩ : DF).names =
      df.names.map normName := by
    rw [DF.names, DF.names, List.map_map, List.map_map]
    rfl
  have hnorm : _normalize_columns df = ⟨df.nrows,
      (df.cols.map fun c => (normName c.1, c.2)) ++
        (REQUIRED_COLUMNS.filter fun c =>
          !((df.names.map normName).contains c)).map
          fun c => (c, List.replicate df.nrows [])⟩ := by
    rw [_normalize_columns, addMissing_spec REQUIRED_COLUMNS _ hnodup]
    rw [hrenames]
  have hnames2 : (_normalize_columns df).names =
      df.names.map normName ++ (REQUIRED_COLUMNS.filter fun c =>
        !((df.names.map normName).contains c)) := by
    rw [hnorm, DF.names]
    rw [List.map_append, List.map_map, List.map_map]
    congr 1
    · rw [DF.names, List.map_map]
      rfl
    · have hfid : (Prod.fst ∘ fun c : PyStr =>
          ((c, List.replicate df.nrows ([] : PyStr)) : PyStr × List PyStr)) =
          id := rfl
      rw [hfid, List.map_id]
  have hmemn : ∀ c ∈ REQUIRED_COLUMNS, c ∈ (_normalize_columns df).names := by
    intro c hc
    rw [hnames2]
    by_cases hin : c ∈ df.names.map normName
    · exact List.mem_append_left _ hin
    · refine List.mem_append_right _ ?_
      rw [List.mem_filter]
      exact ⟨hc, by simp [hin]⟩
  have hrows1 : (_normalize_columns df).nrows = df.nrows := by
    rw [hnorm]
  have hrows2 : (unifyNormalize pdParse fmt df).nrows = df.nrows := by
    rw [unifyNormalize, _create_embedding_text, _normalize_dates]
    split <;>
      simp only [nrows_setCol, _normalize_ticket_ids, nrows_setCol, hrows1]
  refine ⟨hmemn, ?_, hrows1, hrows2, ?_⟩
  · intro c hc hnotin
    rw [hnorm, DF.getCol]
    rw [List.find?_append]
    have hleft : ((df.cols.map fun c => (normName c.1, c.2)).find?
        fun col => col.1 = c) = none := by
      rw [List.find?_eq_none]
      intro x hx
      obtain ⟨p, hp, rfl⟩ := List.mem_map.mp hx
      simp only [decide_eq_true_eq]
      intro hcon
      apply hnotin
      rw [← hcon]
      exact List.mem_map_of_mem _ (List.mem_map_of_mem _ hp)
    rw [hleft, Option.none_or]
    have hcfilter : c ∈ REQUIRED_COLUMNS.filter fun x =>
        !((df.names.map normName).contains x) := by
      rw [List.mem_filter]
      refine ⟨hc, by simp [hnotin]⟩
    rw [List.find?_map]
    have hsome : (REQUIRED_COLUMNS.filter fun x =>
        !((df.names.map normName).contains x)).find?
        ((fun col : PyStr × List PyStr => col.1 = c) ∘
          fun x => (x, List.replicate df.nrows [])) = some c := by
      have hiss : ((REQUIRED_COLUMNS.filter fun x =>
          !((df.names.map normName).contains x)).find?
          ((fun col : PyStr × List PyStr => col.1 = c) ∘
            fun x => (x, List.replicate df.nrows []))).isSome = true := by
        rw [List.find?_isSome]
        exact ⟨c, hcfilter, by simp⟩
      obtain ⟨y, hy⟩ := Option.isSome_iff_exists.mp hiss
      have hyc := List.find?_some hy
      simp only [Function.comp_apply, decide_eq_true_eq] at hyc
      rw [hy, hyc]
    rw [hsome]
    rfl
  · intro c hc
    have hpres : ∀ (d : DF) (m : PyStr), m ∈ d.names →
        m ∈ (_create_embedding_text d).names := by
      intro d m hm
      rw [_create_embedding_text]
      exact mem_names_setCol (mem_names_setCol (mem_names_setCol hm))
    have hdate : ∀ d : DF, "date".toList ∈ (_normalize_dates pdParse fmt d).names := by
      intro d
      rw [_normalize_dates]
      split
      · exact mem_names_setCol_self _ _ _
      · exact mem_names_setCol_self _ _ _
    have hdatepres : ∀ (d : DF) (m : PyStr), m ∈ d.names →
        m ∈ (_normalize_dates pdParse fmt d).names := by
      intro d m hm
      rw [_normalize_dates]
      split
      · exact mem_names_setCol hm
      · exact mem_names_setCol hm
    rw [RECORD_COLUMNS] at hc
    rcases List.mem_append.mp hc with hreq | hrest
    · refine hpres _ _ (hdatepres _ _ ?_)
      rw [_normalize_ticket_ids]
      exact mem_names_setCol (hmemn c hreq)
    · rcases List.mem_cons.mp hrest with hd | hs
      · subst hd
        exact hpres _ _ (hdate _)
      · have hsfc : c = "source_file".toList := List.mem_singleton.mp hs
        subst hsfc
        refine hpres _ _ (hdatepres _ _ ?_)
        rw [_normalize_ticket_ids]
        apply mem_names_setCol
        rw [hnames2]
        apply List.mem_append_left
        have : normName "source_file".toList = "source_file".toList := by decide
        rw [← this]
        exact List.mem_map_of_mem _ hsf

set_option maxHeartbeats 2000000 in
/-- Witness for C7: a one-row table with only an issue and a source_file
column gets resolution back-filled with the empty string. -/
theorem normalize_backfills_required_witness :
    (_normalize_columns
      ⟨1, [("issue".toList, ["vpn".toList]), ("source_file".toList, ["a.csv".toList])]⟩).getCol
      "resolution".toList = some [[]] := by
  have h := (normalize_backfills_required (δ := Unit) (fun _ => none)
    (fun _ => [])
    ⟨1, [("issue".toList, ["vpn".toList]), ("source_file".toList, ["a.csv".toList])]⟩
    (by decide)).2.1 "resolution".toList (by decide) (by decide)
  simpa using h

/-! ## Claim C5: the normalizer is idempotent on normalized tables -/

/-- Helper: unfolding of the core lowercase map on one character. -/
theorem toLower_eq (c : Char) :
    Char.toLower c =
      if c.toNat ≥ 65 ∧ c.toNat ≤ 90 then Char.ofNat (c.toNat + 32) else c :=
  rfl

/-- Helper: uppercase code points are not whitespace. -/
theorem not_ws_of_upper (c : Char) (h65 : c.toNat ≥ 65) :
    c.isWhitespace = false := by
  cases hw : c.isWhitespace with
  | false => rfl
  | true =>
    exfalso
    have hw2 : ((c = ' ' ∨ c = '\t') ∨ c = '\x0d') ∨ c = '\n' := by
      have := hw
      rw [Char.isWhitespace] at this
      simpa using this
    rcases hw2 with ((h | h) | h) | h <;> subst h <;> exact absurd h65 (by decide)

/-- Helper: lowercasing never creates whitespace. -/
theorem isWhitespace_toLower (c : Char) :
    (Char.toLower c).isWhitespace = c.isWhitespace := by
  rw [toLower_eq]
  by_cases h : c.toNat ≥ 65 ∧ c.toNat ≤ 90
  · rw [if_pos h]
    obtain ⟨h65, h90⟩ := h
    have h1 : (Char.ofNat (c.toNat + 32)).isWhitespace = false := by
      generalize hn : c.toNat = n at h65 h90
      interval_cases n <;> decide
    rw [h1, not_ws_of_upper c h65]
  · rw [if_neg h]

/-- Helper: lowercasing is idempotent. -/
theorem toLower_idem (c : Char) :
    Char.toLower (Char.toLower c) = Char.toLower c := by
  rw [toLower_eq c]
  by_cases h : c.toNat ≥ 65 ∧ c.toNat ≤ 90
  · rw [if_pos h]
    obtain ⟨h65, h90⟩ := h
    generalize hn : c.toNat = n at h65 h90
    interval_cases n <;> decide
  · rw [if_neg h, toLower_eq, if_neg h]

/-- Helper: a digit character is not whitespace. -/
theorem not_ws_of_isDigit (c : Char) (h : c.isDigit = true) :
    c.isWhitespace = false := by
  cases hw : c.isWhitespace with
  | false => rfl
  | true =>
    exfalso
    have hw2 : ((c = ' ' ∨ c = '\t') ∨ c = '\x0d') ∨ c = '\n' := by
      have := hw
      rw [Char.isWhitespace] at this
      simpa using this
    rcases hw2 with ((h2 | h2) | h2) | h2 <;> subst h2 <;>
      exact absurd h (by decide)

/-- The per-character action of the column-name normalization:
lowercase, then turn a space into an underscore. -/
def normChar (c : Char) : Char :=
  if Char.toLower c = ' ' then '_' else Char.toLower c

/-- Helper: the name normalization is strip followed by a character map. -/
theorem normName_eq_map (s : PyStr) :
    normName s = (pyStrip s).map normChar := by
  rw [normName, pyReplaceSpace, pyLower, List.map_map]
  rfl

/-- Helper: the character action never creates whitespace. -/
theorem normChar_not_ws (c : Char) (h : c.isWhitespace = false) :
    (normChar c).isWhitespace = false := by
  rw [normChar]
  by_cases hsp : Char.toLower c = ' '
  · rw [if_pos hsp]
    decide
  · rw [if_neg hsp, isWhitespace_toLower, h]

/-- Helper: the character action is idempotent. -/
theorem normChar_idem (c : Char) : normChar (normChar c) = normChar c := by
  by_cases hsp : Char.toLower c = ' '
  · have h1 : normChar c = '_' := by rw [normChar, if_pos hsp]
    rw [h1]
    decide
  · have h1 : normChar c = Char.toLower c := by rw [normChar, if_neg hsp]
    rw [h1, normChar, toLower_idem, if_neg hsp]

/-- Helper: the head of a dropWhile result fails the predicate. -/
theorem head?_dropWhile_false (p : Char → Bool) (l : PyStr) :
    ∀ c, (l.dropWhile p).head? = some c → p c = false := by
  induction l with
  | nil =>
    intro c h
    simp at h
  | cons a t ih =>
    intro c h
    rw [List.dropWhile_cons] at h
    by_cases pa : p a = true
    · rw [if_pos pa] at h
      exact ih c h
    · rw [if_neg pa] at h
      simp at h
      rw [← h]
      cases hpa : p a with
      | false => rfl
      | true => exact absurd hpa pa

/-- Helper: dropping a prefix does not change the last element of a
non-empty remainder. -/
theorem getLast?_dropWhile (p : Char → Bool) :
    ∀ l : PyStr, l.dropWhile p ≠ [] → (l.dropWhile p).getLast? = l.getLast? := by
  intro l
  induction l with
  | nil =>
    intro h
    simp at h
  | cons a t ih =>
    intro h
    rw [List.dropWhile_cons] at h ⊢
    by_cases pa : p a = true
    · rw [if_pos pa] at h ⊢
      rw [ih h]
      have ht : t ≠ [] := by
        intro h0
        subst h0
        simp at h
      cases t with
      | nil => exact absurd rfl ht
      | cons b s => rw [List.getLast?_cons_cons]
    · rw [if_neg pa]

/-- Helper: a list whose head fails the predicate is unchanged by
dropWhile. -/
theorem dropWhile_eq_self_of_head (p : Char → Bool) (l : PyStr)
    (h : ∀ c, l.head? = some c → p c = false) : l.dropWhile p = l := by
  cases l with
  | nil => rfl
  | cons a t =>
    rw [List.dropWhile_cons, if_neg]
    rw [h a rfl]
    simp

/-- Helper: a string with no leading and no trailing whitespace is
unchanged by strip. -/
theorem pyStrip_eq_self (l : PyStr)
    (h1 : ∀ c, l.head? = some c → c.isWhitespace = false)
    (h2 : ∀ c, l.reverse.head? = some c → c.isWhitespace = false) :
    pyStrip l = l := by
  rw [pyStrip, dropWhile_eq_self_of_head _ l h1,
    dropWhile_eq_self_of_head _ l.reverse h2, List.reverse_reverse]

/-- Helper: the stripped string has no leading whitespace. -/
theorem pyStrip_noLead (l : PyStr) :
    ∀ c, (pyStrip l).head? = some c → c.isWhitespace = false := by
  intro c h
  rw [pyStrip, List.head?_reverse] at h
  have hne : (l.dropWhile Char.isWhitespace).reverse.dropWhile Char.isWhitespace ≠ [] := by
    intro h0
    rw [h0] at h
    simp at h
  rw [getLast?_dropWhile _ _ hne, List.getLast?_reverse] at h
  exact head?_dropWhile_false _ _ c h

/-- Helper: the stripped string has no trailing whitespace. -/
theorem pyStrip_noTrail (l : PyStr) :
    ∀ c, (pyStrip l).reverse.head? = some c → c.isWhitespace = false := by
  intro c h
  rw [pyStrip, List.reverse_reverse] at h
  exact head?_dropWhile_false _ _ c h

/-- Helper: the name normalization is idempotent. -/
theorem normName_idem (s : PyStr) : normName (normName s) = normName s := by
  rw [normName_eq_map (normName s)]
  have hstrip : pyStrip (normName s) = normName s := by
    apply pyStrip_eq_self
    · intro c h
      rw [normName_eq_map, List.head?_map] at h
      cases hh : (pyStrip s).head? with
      | none =>
        rw [hh] at h
        cases h
      | some c0 =>
        rw [hh] at h
        have : c = normChar c0 := by
          simp at h
          exact h.symm
        rw [this]
        exact normChar_not_ws c0 (pyStrip_noLead s c0 hh)
    · intro c h
      rw [normName_eq_map, ← List.map_reverse, List.head?_map] at h
      cases hh : (pyStrip s).reverse.head? with
      | none =>
        rw [hh] at h
        cases h
      | some c0 =>
        rw [hh] at h
        have : c = normChar c0 := by
          simp at h
          exact h.symm
        rw [this]
        exact normChar_not_ws c0 (pyStrip_noTrail s c0 hh)
  rw [hstrip, normName_eq_map s, List.map_map]
  apply List.map_congr_left
  intro c _
  exact normChar_idem c

/-- Helper: a canonical TCKT-prefixed id (prefix followed by a non-empty
digit run) is a fixed point of id normalization at every row position. -/
theorem normalize_id_canonical (ds : PyStr) (hne : ds ≠ [])
    (hd : ∀ c ∈ ds, c.isDigit = true) (j : Nat) :
    normalize_id ("TCKT-".toList ++ ds) j = "TCKT-".toList ++ ds := by
  have hshape : "TCKT-".toList ++ ds = 'T' :: 'C' :: 'K' :: 'T' :: '-' :: ds := rfl
  have hstrip : pyStrip ("TCKT-".toList ++ ds) = "TCKT-".toList ++ ds := by
    apply pyStrip_eq_self
    · intro c h
      rw [hshape] at h
      simp at h
      rw [← h]
      decide
    · intro c h
      rw [List.head?_reverse, List.getLast?_append] at h
      cases hgl : ds.getLast? with
      | none =>
        rw [List.getLast?_eq_none_iff] at hgl
        exact absurd hgl hne
      | some d =>
        rw [hgl] at h
        simp at h
        rw [← h]
        exact not_ws_of_isDigit d (hd d (List.mem_of_mem_getLast? hgl))
  have hrun : firstDigitRun ('T' :: 'C' :: 'K' :: 'T' :: '-' :: ds) =
      some ds := by
    rw [firstDigitRun, if_neg (by decide)]
    rw [firstDigitRun, if_neg (by decide)]
    rw [firstDigitRun, if_neg (by decide)]
    rw [firstDigitRun, if_neg (by decide)]
    rw [firstDigitRun, if_neg (by decide)]
    cases ds with
    | nil => exact absurd rfl hne
    | cons d rest =>
      rw [firstDigitRun, if_pos (hd d (List.mem_cons_self d rest))]
      rw [List.takeWhile_eq_self_iff.mpr hd]
  rw [normalize_id]
  simp only [hshape]
  have hstrip2 : pyStrip ('T' :: 'C' :: 'K' :: 'T' :: '-' :: ds) =
      'T' :: 'C' :: 'K' :: 'T' :: '-' :: ds := by
    rw [← hshape]
    exact hstrip
  rw [hstrip2, hrun]
  exact hshape

/-- Helper: a column of ids that are fixed points of normalization at
every position is unchanged by the id-normalization pass. -/
theorem normalizeTicketIdColumn_fixed (l : List PyStr)
    (h : ∀ v ∈ l, ∀ j, normalize_id v j = v) :
    normalizeTicketIdColumn l = l := by
  rw [normalizeTicketIdColumn]
  apply List.ext_getElem?
  intro n
  rw [show (l.mapIdx fun i v => normalize_id v i)[n]? =
    (l[n]?).map (fun v => normalize_id v n) from
    (List.mapIdx_eq_iff.mp rfl) n]
  cases hv : l[n]? with
  | none => rfl
  | some v =>
    have hm : v ∈ l := List.getElem?_mem hv
    simp [h v hm n]

/-- Helper: assigning to a column the values it already holds is the
identity when column names are unique. -/
theorem setCol_self_aux (n : PyStr) (vs : List PyStr) :
    ∀ cols : List (PyStr × List PyStr), (cols.map Prod.fst).Nodup →
      (cols.find? fun c => c.1 = n) = some (n, vs) →
      (cols.map fun c => if c.1 = n then (c.1, vs) else c) = cols := by
  intro cols
  induction cols with
  | nil =>
    intro _ h
    cases h
  | cons x xs ih =>
    intro hnd hf
    by_cases hx : x.1 = n
    · have hfx : (x :: xs).find? (fun c => c.1 = n) = some x := by
        rw [List.find?_cons_of_pos]
        simp [hx]
      rw [hfx] at hf
      injection hf with hfv
      have hxv : x = (n, vs) := hfv.symm ▸ rfl
      have hrest : ∀ c ∈ xs, c.1 ≠ n := by
        intro c hc hcon
        apply (List.nodup_cons.mp hnd).1
        rw [hx, ← hcon]
        exact List.mem_map_of_mem _ hc
      rw [List.map_cons, if_pos hx]
      have htail : (xs.map fun c => if c.1 = n then (c.1, vs) else c) = xs := by
        have h1 : ∀ c ∈ xs, (if c.1 = n then (c.1, vs) else c) = c :=
          fun c hc => if_neg (hrest c hc)
        rw [List.map_congr_left h1]
        simp
      rw [htail]
      rw [hxv]
    · have hfx : (x :: xs).find? (fun c => c.1 = n) =
          xs.find? (fun c => c.1 = n) := by
        rw [List.find?_cons_of_neg]
        simp [hx]
      rw [hfx] at hf
      rw [List.map_cons, if_neg hx, ih (List.nodup_cons.mp hnd).2 hf]

/-- Helper: re-assigning a column its current values is a no-op. -/
theorem setCol_self {df : DF} {n : PyStr} {vs : List PyStr}
    (hnd : df.names.Nodup) (hget : df.getCol n = some vs) :
    df.setCol n vs = df := by
  rw [DF.getCol] at hget
  obtain ⟨col, hcol, hcv⟩ := Option.map_eq_some'.mp hget
  have hp : col.1 = n := by
    have := List.find?_some hcol
    simpa using this
  have hcontains : df.names.contains n = true := by
    have : n ∈ df.names := by
      rw [← hp]
      exact List.mem_map_of_mem _ (List.mem_of_find?_eq_some hcol)
    simpa using this
  have hcoln : col = (n, vs) := by
    obtain ⟨c1, c2⟩ := col
    simp only at hp hcv
    rw [hp, hcv]
  rw [DF.setCol, if_pos hcontains]
  have := setCol_self_aux n vs df.cols hnd (hcoln ▸ hcol)
  rw [this]

/-- Helper: the back-fill loop is a no-op when every listed column is
already present. -/
theorem addMissing_id :
    ∀ (cs : List PyStr) (d : DF), (∀ c ∈ cs, d.names.contains c = true) →
      addMissing cs d = d := by
  intro cs
  induction cs with
  | nil => intro d _; rfl
  | cons c cs ih =>
    intro d h
    rw [addMissing, if_pos (h c (List.mem_cons_self c cs))]
    exact ih d fun x hx => h x (List.mem_cons_of_mem c hx)

/-- Helper: a successful column lookup means the name is present. -/
theorem getCol_mem_names {df : DF} {n : PyStr} {vs : List PyStr}
    (h : df.getCol n = some vs) : n ∈ df.names := by
  rw [DF.getCol] at h
  obtain ⟨col, hcol, _⟩ := Option.map_eq_some'.mp h
  have hp : col.1 = n := by
    have := List.find?_some hcol
    simpa using this
  rw [← hp]
  exact List.mem_map_of_mem _ (List.mem_of_find?_eq_some hcol)

/-- Helper: a present name can be looked up. -/
theorem getCol_isSome_of_mem {df : DF} {n : PyStr} (h : n ∈ df.names) :
    ∃ vs, df.getCol n = some vs := by
  rw [DF.names] at h
  obtain ⟨col, hcol, hfst⟩ := List.mem_map.mp h
  have hiss : (df.cols.find? fun c => c.1 = n).isSome = true := by
    rw [List.find?_isSome]
    exact ⟨col, hcol, by simp [hfst]⟩
  obtain ⟨y, hy⟩ := Option.isSome_iff_exists.mp hiss
  exact ⟨y.2, by rw [DF.getCol, hy]; rfl⟩

/-- A table in the canonical shape the normalizer produces: unique
canonical column names, all required columns present, TCKT-prefixed ids
with a non-empty digit run, date cells that the per-cell date
normalization leaves unchanged (canonical rendering or empty), and an
embedding-text column derived from issue and description. -/
structure IsNormalized {δ : Type} (pdParse : PyStr → Option δ)
    (fmt : δ → PyStr) (df : DF) : Prop where
  nodup : df.names.Nodup
  namesFixed : ∀ n ∈ df.names, normName n = n
  required : ∀ c ∈ REQUIRED_COLUMNS, c ∈ df.names
  tids : ∃ ids, df.getCol "ticket_id".toList = some ids ∧
    ∀ v ∈ ids, ∃ ds, ds ≠ [] ∧ (∀ c ∈ ds, c.isDigit = true) ∧
      v = "TCKT-".toList ++ ds
  dates : ∃ vs, df.getCol "date".toList = some vs ∧
    ∀ v ∈ vs, dateNormValue pdParse fmt v = v
  etext : df.getCol "embedding_text".toList =
    some (List.zipWith embedText (df.getColD "issue".toList)
      (df.getColD "description".toList))

/-- Claim C5.  Applying the normalizer's sequence of steps (column
normalization, id normalization, date normalization, embedding-text
construction) to an already-normalized table is a no-op: it returns the
very same table — in particular the same column names, the same ticket
ids and the same embedding text. -/
theorem normalizer_idempotent {δ : Type} (pdParse : PyStr → Option δ)
    (fmt : δ → PyStr) (df : DF) (h : IsNormalized pdParse fmt df) :
    unifyNormalize pdParse fmt df = df := by
  have step1 : _normalize_columns df = df := by
    rw [_normalize_columns]
    have hren : (df.cols.map fun c => (normName c.1, c.2)) = df.cols := by
      have h1 : ∀ c ∈ df.cols, (normName c.1, c.2) = c := by
        intro c hc
        rw [h.namesFixed c.1 (List.mem_map_of_mem _ hc)]
      rw [List.map_congr_left h1]
      simp
    rw [hren]
    exact addMissing_id REQUIRED_COLUMNS df fun c hc => by
      simpa using h.required c hc
  have step2 : _normalize_ticket_ids df = df := by
    obtain ⟨ids, hget, hcanon⟩ := h.tids
    have hgetD : df.getColD "ticket_id".toList = ids := by
      rw [DF.getColD, hget]
      rfl
    have hfix : normalizeTicketIdColumn ids = ids := by
      apply normalizeTicketIdColumn_fixed
      intro v hv j
      obtain ⟨ds, hne, hd, rfl⟩ := hcanon v hv
      exact normalize_id_canonical ds hne hd j
    rw [_normalize_ticket_ids, hgetD, hfix]
    exact setCol_self h.nodup hget
  have step3 : _normalize_dates pdParse fmt df = df := by
    obtain ⟨vs, hget, hfixv⟩ := h.dates
    have hcont : df.names.contains "date".toList = true := by
      simpa using getCol_mem_names hget
    have hgetD : df.getColD "date".toList = vs := by
      rw [DF.getColD, hget]
      rfl
    have hmap : vs.map (dateNormValue pdParse fmt) = vs := by
      have h1 : ∀ v ∈ vs, dateNormValue pdParse fmt v = id v :=
        fun v hv => hfixv v hv
      rw [List.map_congr_left h1]
      simp
    rw [_normalize_dates, if_pos hcont, hgetD, hmap]
    exact setCol_self h.nodup hget
  have step4 : _create_embedding_text df = df := by
    obtain ⟨ivs, hi⟩ := getCol_isSome_of_mem (h.required "issue".toList (by decide))
    obtain ⟨dvs, hdv⟩ :=
      getCol_isSome_of_mem (h.required "description".toList (by decide))
    have hiD : df.getColD "issue".toList = ivs := by
      rw [DF.getColD, hi]
      rfl
    have hdD : df.getColD "description".toList = dvs := by
      rw [DF.getColD, hdv]
      rfl
    have e1 : df.setCol "issue".toList (df.getColD "issue".toList) = df := by
      rw [hiD]
      exact setCol_self h.nodup hi
    have e2 : df.setCol "description".toList
        (df.getColD "description".toList) = df := by
      rw [hdD]
      exact setCol_self h.nodup hdv
    rw [_create_embedding_text, e1, e2]
    exact setCol_self h.nodup h.etext
  rw [unifyNormalize, step1, step2, step3, step4]

set_option maxHeartbeats 4000000 in
/-- Witness for C5: a concrete one-row normalized table is returned
unchanged by a second run of the normalizer. -/
theorem normalizer_idempotent_witness :
    unifyNormalize (fun _ : PyStr => (none : Option Unit)) (fun _ => [])
      ⟨1, [("ticket_id".toList, ["TCKT-1".toList]),
           ("issue".toList, ["a".toList]),
           ("description".toList, ["b".toList]),
           ("resolution".toList, [[]]),
           ("category".toList, [[]]),
           ("resolved".toList, [[]]),
           ("date".toList, [[]]),
           ("embedding_text".toList, ["Issue: a - Description: b".toList])]⟩ =
      ⟨1, [("ticket_id".toList, ["TCKT-1".toList]),
           ("issue".toList, ["a".toList]),
           ("description".toList, ["b".toList]),
           ("resolution".toList, [[]]),
           ("category".toList, [[]]),
           ("resolved".toList, [[]]),
           ("date".toList, [[]]),
           ("embedding_text".toList, ["Issue: a - Description: b".toList])]⟩ :=
  normalizer_idempotent _ _ _
    ⟨by decide, by decide, by decide,
     ⟨["TCKT-1".toList], rfl, fun v hv =>
       ⟨"1".toList, by decide, by decide, by
         rw [List.mem_singleton] at hv
         rw [hv]
         rfl⟩⟩,
     ⟨[[]], rfl, fun v hv => by
       rw [List.mem_singleton] at hv
       rw [hv]
       rfl⟩,
     rfl⟩
